import Mathlib

/-!
# FST Manager rate upgrade (`fst_rateupg.c`)

A shallow embedding of the rate-upgrade registry: the group list, the prefix
lookup, the group lifecycle (`fst_rate_upgrade_add_group`,
`fst_rate_upgrade_del_group`) and the connection fan-out
(`fst_rate_upgrade_on_connect`, `fst_rate_upgrade_on_disconnect`).

Modelling conventions.

* A C string is the `String` of its characters before the terminating NUL.
* The intrusive list `g_rateupg_mgr.groups` is a `List`; a node pointer is the
  position of the node in that list.
* A slave array is a `List` indexed from `0`; the count travels separately as
  an `Int`, exactly as `slave_cnt` does in the source.
* The functions the file calls but does not define (configuration source,
  interface manager, connection duplicator) are parameters, gathered in
  `Collaborators`. Each of them answers as a function of the history of
  collaborator calls made so far, which covers every deterministic stateful
  implementation. The history is the ghost field `State.calls`.
* `fst_mgr_printf` and `free` have no effect on the modelled state.
* The heap is unbounded: an allocation never fails. `malloc` is used unchecked
  by the source; `strdup` is kept as a function, so that the test of its
  result stays in `fst_rate_upgrade_add_group`.
* A loop `for (i = 0; i < cnt; i++)` is a recursion on the number of indices
  left below `cnt`; it starts with `cnt.toNat` of them, which is `0` for a
  negative count.
-/

namespace FstRateupg

/-! ## Data model -/

/-- Interface descriptor `struct fst_iface_info`: the name, which the module
prints, and the remaining fields, which it only passes on. -/
structure fst_iface_info where
  name : String
  rest : Nat
deriving DecidableEq, Repr, Inhabited

/-- Group descriptor `struct fst_group_info` as far as the module reads it. -/
structure fst_group_info where
  id : String
deriving DecidableEq, Repr

/-- Handle of the configuration source, `struct fst_ini_config *`. -/
structure fst_ini_config where
  handle : Nat
deriving DecidableEq, Repr

/-- Record `struct rate_upgrade_group` (the list entry is the position of the
record in the group list). -/
structure rate_upgrade_group where
  groupname : String
  master : String
  slaves : List fst_iface_info
  slave_cnt : Int
deriving DecidableEq, Repr

/-- Record `struct rate_upgrade_manager`. -/
structure rate_upgrade_manager where
  iniconf : fst_ini_config
  groups : List rate_upgrade_group
deriving DecidableEq, Repr

/-- One call made to a collaborator. -/
inductive Call where
  | get_master (id : String)
  | get_slaves (id : String) (master : String)
  | add_iface (master : String) (iface : fst_iface_info)
  | del_iface (iface : fst_iface_info)
  | dup_connection (iface : fst_iface_info) (master : String) (addr : List Nat)
  | dedup_connection (iface : fst_iface_info)
deriving DecidableEq, Repr

/-- The external functions of `fst_rateupg.c`. The first argument of each is
the history of collaborator calls made before this one. The integer results
follow the C convention: `0` is success, anything else is failure.
`fst_ini_config_get_group_slave_ifaces` returns the count and the array it
stores through its last argument. -/
structure Collaborators where
  fst_ini_config_get_rate_upgrade_master :
    List Call → fst_ini_config → String → Option String
  fst_ini_config_get_group_slave_ifaces :
    List Call → fst_ini_config → fst_group_info → String → Int × List fst_iface_info
  fst_add_iface : List Call → String → fst_iface_info → Int
  fst_del_iface : List Call → fst_iface_info → Int
  fst_dup_connection : List Call → fst_iface_info → String → List Nat → Int
  fst_dedup_connection : List Call → fst_iface_info → Int

/-- The globals `g_rateupg_mgr` and `g_rateupg_mgr_initialized`, with the
history of collaborator calls. -/
structure State where
  g_rateupg_mgr : rate_upgrade_manager
  g_rateupg_mgr_initialized : Int
  calls : List Call
deriving DecidableEq, Repr

/-! ## C library -/

/-- Length of a C string. -/
def strlen (s : String) : Nat := s.length

/-- Comparison of at most `n` characters of two C strings, given as the
characters before the NUL. The result is negative, zero or positive. -/
def strncmp : List Char → List Char → Nat → Int
  | _, _, 0 => 0
  | [], [], _ + 1 => 0
  | [], _ :: _, _ + 1 => -1
  | _ :: _, [], _ + 1 => 1
  | a :: as, b :: bs, n + 1 =>
    if a = b then strncmp as bs n else if a < b then -1 else 1

/-- Copy of a C string on the heap. The heap of this model is unbounded, so
the copy is always made; callers still test the result as the source does. -/
def strdup (s : String) : Option String := some s

/-! ## Registry -/

/-- Lookup `find_rate_upgrade_group`: the first group of the list such that
`strncmp(g->groupname, name, strlen(name))` is zero, with its position. -/
def find_rate_upgrade_group :
    List rate_upgrade_group → String → Option (Nat × rate_upgrade_group)
  | [], _ => none
  | g :: rest, name =>
    if strncmp g.groupname.toList name.toList (strlen name) = 0 then some (0, g)
    else (find_rate_upgrade_group rest name).map (fun p => (p.1 + 1, p.2))

/-- Destruction `deinit_rate_upgrade_group` of the node at position `pos`:
`dl_list_del` unlinks it, the others keep their order. -/
def deinit_rate_upgrade_group (groups : List rate_upgrade_group) (pos : Nat) :
    List rate_upgrade_group :=
  groups.eraseIdx pos

/-- Initialisation `fst_rate_upgrade_init`. -/
def fst_rate_upgrade_init (st : State) (h : fst_ini_config) : Int × State :=
  (0, { g_rateupg_mgr := { iniconf := h, groups := [] },
        g_rateupg_mgr_initialized := 1,
        calls := st.calls })

/-- The loop of `fst_rate_upgrade_deinit`: while the list is not empty,
destroy its first node. -/
def deinit_all : List rate_upgrade_group → List rate_upgrade_group
  | [] => []
  | g :: rest => deinit_all (deinit_rate_upgrade_group (g :: rest) 0)
termination_by l => l.length
decreasing_by simp [deinit_rate_upgrade_group]

/-- Shutdown `fst_rate_upgrade_deinit`. -/
def fst_rate_upgrade_deinit (st : State) : State :=
  if st.g_rateupg_mgr_initialized ≠ 0 then
    { st with
      g_rateupg_mgr := { st.g_rateupg_mgr with groups := deinit_all st.g_rateupg_mgr.groups },
      g_rateupg_mgr_initialized := 0 }
  else st

/-! ## Group lifecycle -/

/-- The loop `for (i = 0; i < g->slave_cnt; i++) if (fst_add_iface(master,
&ifaces[i])) goto error_add;` of `fst_rate_upgrade_add_group`, at index `i`
with `n` indices left below the count. The result is `some i` when the loop
jumps to `error_add` with that value of `i`, and `none` when it runs out. -/
def add_group_loop (env : Collaborators) (master : String) (ifaces : List fst_iface_info) :
    Nat → Nat → List Call → Option Nat × List Call
  | 0, _, calls => (none, calls)
  | n + 1, i, calls =>
    let iface := ifaces.getD i default
    if env.fst_add_iface calls master iface ≠ 0 then
      (some i, calls ++ [Call.add_iface master iface])
    else
      add_group_loop env master ifaces n (i + 1) (calls ++ [Call.add_iface master iface])

/-- The loop `while (i-- > 0) fst_del_iface(&ifaces[i]);` under the label
`error_add`, entered with the value `i`. The results are discarded. -/
def add_group_error_add (env : Collaborators) (ifaces : List fst_iface_info) :
    Nat → List Call → List Call
  | 0, calls => calls
  | i + 1, calls =>
    let iface := ifaces.getD i default
    let _res := env.fst_del_iface calls iface
    add_group_error_add env ifaces i (calls ++ [Call.del_iface iface])

/-- Operation `fst_rate_upgrade_add_group`. -/
def fst_rate_upgrade_add_group (env : Collaborators) (st : State)
    (group : fst_group_info) : Int × State :=
  match find_rate_upgrade_group st.g_rateupg_mgr.groups group.id with
  | some _ => (0, st)
  | none =>
    let master := env.fst_ini_config_get_rate_upgrade_master st.calls
      st.g_rateupg_mgr.iniconf group.id
    let calls1 := st.calls ++ [Call.get_master group.id]
    match master with
    | none => (0, { st with calls := calls1 })
    | some master =>
      match strdup group.id with
      | none => (-1, { st with calls := calls1 })
      | some groupname =>
        let res := env.fst_ini_config_get_group_slave_ifaces calls1
          st.g_rateupg_mgr.iniconf group master
        let slave_cnt := res.1
        let ifaces := res.2
        let calls2 := calls1 ++ [Call.get_slaves group.id master]
        if slave_cnt < 0 then (-1, { st with calls := calls2 })
        else if slave_cnt = 0 then (-1, { st with calls := calls2 })
        else
          match add_group_loop env master ifaces slave_cnt.toNat 0 calls2 with
          | (some i, calls3) =>
            (-1, { st with calls := add_group_error_add env ifaces i calls3 })
          | (none, calls3) =>
            let g : rate_upgrade_group :=
              { groupname := groupname, master := master,
                slaves := ifaces, slave_cnt := slave_cnt }
            (0, { st with
                  g_rateupg_mgr :=
                    { st.g_rateupg_mgr with groups := st.g_rateupg_mgr.groups ++ [g] },
                  calls := calls3 })

/-- The loop `for (i = 0; i < g->slave_cnt; i++) if (fst_del_iface(
&g->slaves[i])) fst_mgr_printf(...)` of `fst_rate_upgrade_del_group`, at
index `i` with `n` indices left below the count. A failure only prints. -/
def del_group_loop (env : Collaborators) (slaves : List fst_iface_info) :
    Nat → Nat → List Call → List Call
  | 0, _, calls => calls
  | n + 1, i, calls =>
    let iface := slaves.getD i default
    if env.fst_del_iface calls iface ≠ 0 then
      del_group_loop env slaves n (i + 1) (calls ++ [Call.del_iface iface])
    else
      del_group_loop env slaves n (i + 1) (calls ++ [Call.del_iface iface])

/-- Operation `fst_rate_upgrade_del_group`. -/
def fst_rate_upgrade_del_group (env : Collaborators) (st : State)
    (group : fst_group_info) : Int × State :=
  match find_rate_upgrade_group st.g_rateupg_mgr.groups group.id with
  | none => (-1, st)
  | some (pos, g) =>
    let calls1 := del_group_loop env g.slaves g.slave_cnt.toNat 0 st.calls
    (0, { st with
          g_rateupg_mgr :=
            { st.g_rateupg_mgr with
              groups := deinit_rate_upgrade_group st.g_rateupg_mgr.groups pos },
          calls := calls1 })

/-! ## Connection fan-out -/

/-- The loop `for (i = 0; i < g->slave_cnt; i++) if (fst_dup_connection(
&g->slaves[i], g->master, addr)) goto error_connect;` of
`fst_rate_upgrade_on_connect`, at index `i` with `n` indices left below the
count. The result is `some i` when the loop jumps to `error_connect` with
that value of `i`, and `none` when it runs out. -/
def on_connect_loop (env : Collaborators) (g : rate_upgrade_group) (addr : List Nat) :
    Nat → Nat → List Call → Option Nat × List Call
  | 0, _, calls => (none, calls)
  | n + 1, i, calls =>
    let iface := g.slaves.getD i default
    if env.fst_dup_connection calls iface g.master addr ≠ 0 then
      (some i, calls ++ [Call.dup_connection iface g.master addr])
    else
      on_connect_loop env g addr n (i + 1)
        (calls ++ [Call.dup_connection iface g.master addr])

/-- The loop `while (i-- > 0) fst_dedup_connection(&g->slaves[i]);` under the
label `error_connect`, entered with the value `i`. The results are
discarded. -/
def on_connect_error_connect (env : Collaborators) (g : rate_upgrade_group) :
    Nat → List Call → List Call
  | 0, calls => calls
  | i + 1, calls =>
    let iface := g.slaves.getD i default
    let _res := env.fst_dedup_connection calls iface
    on_connect_error_connect env g i (calls ++ [Call.dedup_connection iface])

/-- Operation `fst_rate_upgrade_on_connect`. -/
def fst_rate_upgrade_on_connect (env : Collaborators) (st : State)
    (group : fst_group_info) (iface : String) (addr : List Nat) : Int × State :=
  match find_rate_upgrade_group st.g_rateupg_mgr.groups group.id with
  | some (_, g) =>
    if strncmp iface.toList g.master.toList (strlen iface) = 0 then
      match on_connect_loop env g addr g.slave_cnt.toNat 0 st.calls with
      | (some i, calls1) =>
        (-1, { st with calls := on_connect_error_connect env g i calls1 })
      | (none, calls1) => (0, { st with calls := calls1 })
    else (0, st)
  | none => (0, st)

/-- The loop `for (i = 0; i < g->slave_cnt; i++) if (fst_dedup_connection(
&g->slaves[i])) res = -1;` of `fst_rate_upgrade_on_disconnect`, at index `i`
with `n` indices left below the count, threading `res`. -/
def on_disconnect_loop (env : Collaborators) (g : rate_upgrade_group) :
    Nat → Nat → Int → List Call → Int × List Call
  | 0, _, res, calls => (res, calls)
  | n + 1, i, res, calls =>
    let iface := g.slaves.getD i default
    if env.fst_dedup_connection calls iface ≠ 0 then
      on_disconnect_loop env g n (i + 1) (-1) (calls ++ [Call.dedup_connection iface])
    else
      on_disconnect_loop env g n (i + 1) res (calls ++ [Call.dedup_connection iface])

/-- Operation `fst_rate_upgrade_on_disconnect`. The peer address is not
used. -/
def fst_rate_upgrade_on_disconnect (env : Collaborators) (st : State)
    (group : fst_group_info) (iface : String) (_addr : List Nat) : Int × State :=
  match find_rate_upgrade_group st.g_rateupg_mgr.groups group.id with
  | some (_, g) =>
    if strncmp iface.toList g.master.toList (strlen iface) = 0 then
      let r := on_disconnect_loop env g g.slave_cnt.toNat 0 0 st.calls
      (r.1, { st with calls := r.2 })
    else (0, st)
  | none => (0, st)

/-! ## Vocabulary of the specification -/

/-- The prefix rule of the specification: the stored string `s` starts with
the key `key`. -/
def StartsWith (s key : String) : Prop := key.toList <+: s.toList

instance (s key : String) : Decidable (StartsWith s key) :=
  inferInstanceAs (Decidable (key.toList <+: s.toList))

/-- The group collection of the registry. -/
def State.groups (st : State) : List rate_upgrade_group := st.g_rateupg_mgr.groups

/-- The collaborator calls made between the state `before` and the later
state `after`. -/
def calls_since (before after : State) : List Call :=
  after.calls.drop before.calls.length

/-- The `fst_add_iface` calls of a history, in order: master and slave. -/
def add_iface_calls (cs : List Call) : List (String × fst_iface_info) :=
  cs.filterMap (fun c => match c with
    | Call.add_iface m i => some (m, i)
    | _ => none)

/-- The `fst_del_iface` calls of a history, in order. -/
def del_iface_calls (cs : List Call) : List fst_iface_info :=
  cs.filterMap (fun c => match c with
    | Call.del_iface i => some i
    | _ => none)

/-- The `fst_dup_connection` calls of a history, in order: slave, master and
peer address. -/
def dup_connection_calls (cs : List Call) : List (fst_iface_info × String × List Nat) :=
  cs.filterMap (fun c => match c with
    | Call.dup_connection i m a => some (i, m, a)
    | _ => none)

/-- The `fst_dedup_connection` calls of a history, in order. -/
def dedup_connection_calls (cs : List Call) : List fst_iface_info :=
  cs.filterMap (fun c => match c with
    | Call.dedup_connection i => some i
    | _ => none)

/-- The configuration source, asked by `fst_rate_upgrade_add_group` in the
state `st`, gives the group the master `m` and the slaves `slaves`: the count
it returns is their number. -/
def Configured (env : Collaborators) (st : State) (group : fst_group_info)
    (m : String) (slaves : List fst_iface_info) : Prop :=
  env.fst_ini_config_get_rate_upgrade_master st.calls st.g_rateupg_mgr.iniconf group.id
      = some m ∧
  env.fst_ini_config_get_group_slave_ifaces (st.calls ++ [Call.get_master group.id])
      st.g_rateupg_mgr.iniconf group m = ((slaves.length : Int), slaves)

/-- The history at the moment `fst_rate_upgrade_add_group`, started in `st`,
has asked the configuration source and has called `fst_add_iface` on the
first `t` slaves. -/
def add_history (st : State) (group : fst_group_info) (m : String)
    (slaves : List fst_iface_info) (t : Nat) : List Call :=
  st.calls ++ [Call.get_master group.id, Call.get_slaves group.id m] ++
    (slaves.take t).map (Call.add_iface m)

/-- The history at the moment `fst_rate_upgrade_on_connect`, started in `st`
on the group `g`, has called `fst_dup_connection` on the first `t` slaves. -/
def dup_history (st : State) (g : rate_upgrade_group) (addr : List Nat) (t : Nat) :
    List Call :=
  st.calls ++ (g.slaves.take t).map (fun s => Call.dup_connection s g.master addr)

/-- The history at the moment `fst_rate_upgrade_on_disconnect`, started in
`st` on the group `g`, has called `fst_dedup_connection` on the first `t`
slaves. -/
def dedup_history (st : State) (g : rate_upgrade_group) (t : Nat) : List Call :=
  st.calls ++ (g.slaves.take t).map Call.dedup_connection

/-- The states the registry can be in: any state just initialised, and every
state one of the four group operations leaves from a reachable state. -/
inductive Reachable (env : Collaborators) : State → Prop where
  | init (st : State) (h : fst_ini_config) :
      Reachable env (fst_rate_upgrade_init st h).2
  | add_group {st : State} (group : fst_group_info) :
      Reachable env st → Reachable env (fst_rate_upgrade_add_group env st group).2
  | del_group {st : State} (group : fst_group_info) :
      Reachable env st → Reachable env (fst_rate_upgrade_del_group env st group).2
  | on_connect {st : State} (group : fst_group_info) (iface : String) (addr : List Nat) :
      Reachable env st → Reachable env (fst_rate_upgrade_on_connect env st group iface addr).2
  | on_disconnect {st : State} (group : fst_group_info) (iface : String) (addr : List Nat) :
      Reachable env st →
      Reachable env (fst_rate_upgrade_on_disconnect env st group iface addr).2

/-! ## Sample collaborators and states -/

/-- A configuration source that gives every group the master `wlan0` and the
slaves `wlan1`, `wlan2`, `wlan3`, with an interface manager and a connection
duplicator that fail exactly on the listed interface names. -/
def sampleEnv (badAdd badDel badDup badDedup : List String) : Collaborators :=
  { fst_ini_config_get_rate_upgrade_master := fun _ _ _ => some "wlan0"
    fst_ini_config_get_group_slave_ifaces := fun _ _ _ _ =>
      (3, [⟨"wlan1", 1⟩, ⟨"wlan2", 2⟩, ⟨"wlan3", 3⟩])
    fst_add_iface := fun _ _ i => if i.name ∈ badAdd then 1 else 0
    fst_del_iface := fun _ i => if i.name ∈ badDel then 1 else 0
    fst_dup_connection := fun _ i _ _ => if i.name ∈ badDup then 1 else 0
    fst_dedup_connection := fun _ i => if i.name ∈ badDedup then 1 else 0 }

/-- The three slaves of `sampleEnv`. -/
def sampleSlaves : List fst_iface_info := [⟨"wlan1", 1⟩, ⟨"wlan2", 2⟩, ⟨"wlan3", 3⟩]

/-- A registry just initialised. -/
def sampleInit : State :=
  (fst_rate_upgrade_init ⟨⟨⟨0⟩, []⟩, 0, []⟩ ⟨7⟩).2

/-- A group as `sampleEnv` configures it. -/
def sampleGroup (name : String) : rate_upgrade_group :=
  { groupname := name, master := "wlan0", slaves := sampleSlaves, slave_cnt := 3 }

/-- A registry holding the groups `A` and `AB`, in this order: both were
added to `sampleInit` with every bind succeeding. -/
def sampleTwo : State :=
  (fst_rate_upgrade_add_group (sampleEnv [] [] [] [])
    (fst_rate_upgrade_add_group (sampleEnv [] [] [] []) sampleInit ⟨"A"⟩).2 ⟨"AB"⟩).2

/-- The collaborators of `sampleEnv [] [] [] []` with another configuration
source: it answers `master` to every question about the master, and the
count `cnt` with the array `ifaces` to every question about the slaves. -/
def sampleCfgEnv (master : Option String) (cnt : Int) (ifaces : List fst_iface_info) :
    Collaborators :=
  { sampleEnv [] [] [] [] with
    fst_ini_config_get_rate_upgrade_master := fun _ _ _ => master
    fst_ini_config_get_group_slave_ifaces := fun _ _ _ _ => (cnt, ifaces) }

/-- The history at the moment `fst_rate_upgrade_add_group`, entered with the
history `h`, has asked the configuration source about the group that became
the record `g` and has called `fst_add_iface` on the slaves of `g` at the
indices below `t`. -/
def creation_history (h : List Call) (g : rate_upgrade_group) (t : Nat) : List Call :=
  h ++ [Call.get_master g.groupname, Call.get_slaves g.groupname g.master] ++
    (List.range t).map (fun x => Call.add_iface g.master (g.slaves.getD x default))

/-- The record `g` was created earlier in the history of `st`: at some moment
`h` of that history the configuration source gave its master, then its count
and its slaves, and then `fst_add_iface` succeeded on each of the slaves at
the indices below the count, in order. -/
def CreatedIn (env : Collaborators) (st : State) (g : rate_upgrade_group) : Prop :=
  ∃ h : List Call,
    creation_history h g g.slave_cnt.toNat <+: st.calls ∧
    env.fst_ini_config_get_rate_upgrade_master h st.g_rateupg_mgr.iniconf g.groupname
      = some g.master ∧
    env.fst_ini_config_get_group_slave_ifaces (h ++ [Call.get_master g.groupname])
      st.g_rateupg_mgr.iniconf ⟨g.groupname⟩ g.master = (g.slave_cnt, g.slaves) ∧
    ∀ t, t < g.slave_cnt.toNat →
      env.fst_add_iface (creation_history h g t) g.master (g.slaves.getD t default) = 0

/-- The slave `s` of the record `g` was added with success through the
interface manager at some moment of the history of `st`. -/
def SlaveAdded (env : Collaborators) (st : State) (g : rate_upgrade_group)
    (s : fst_iface_info) : Prop :=
  ∃ h : List Call,
    h ++ [Call.add_iface g.master s] <+: st.calls ∧ env.fst_add_iface h g.master s = 0

/-- The configuration source keeps the contract of
`fst_ini_config_get_group_slave_ifaces`: a count that is not negative is the
number of entries of the array it stores. -/
def WellFormedConfig (env : Collaborators) : Prop :=
  ∀ (h : List Call) (c : fst_ini_config) (grp : fst_group_info) (m : String),
    0 ≤ (env.fst_ini_config_get_group_slave_ifaces h c grp m).1 →
    (env.fst_ini_config_get_group_slave_ifaces h c grp m).1 =
      ((env.fst_ini_config_get_group_slave_ifaces h c grp m).2.length : Int)

/-- The configuration source and the interface manager have a fixed
behaviour: their answers do not depend on the history of calls. -/
def FixedBehaviour (env : Collaborators) : Prop :=
  (∀ (h h' : List Call) (c : fst_ini_config) (id : String),
    env.fst_ini_config_get_rate_upgrade_master h c id =
      env.fst_ini_config_get_rate_upgrade_master h' c id) ∧
  (∀ (h h' : List Call) (c : fst_ini_config) (grp : fst_group_info) (m : String),
    env.fst_ini_config_get_group_slave_ifaces h c grp m =
      env.fst_ini_config_get_group_slave_ifaces h' c grp m) ∧
  (∀ (h h' : List Call) (m : String) (i : fst_iface_info),
    env.fst_add_iface h m i = env.fst_add_iface h' m i) ∧
  (∀ (h h' : List Call) (i : fst_iface_info),
    env.fst_del_iface h i = env.fst_del_iface h' i)

/-! ## Lemmas on the C library model and the lookup -/

theorem strncmp_eq_zero_iff (a b : List Char) :
    strncmp a b b.length = 0 ↔ b <+: a := by
  induction b generalizing a with
  | nil => simp [strncmp]
  | cons y bs ih =>
    cases a with
    | nil => simp [strncmp]
    | cons x as =>
      by_cases hxy : x = y
      · subst hxy
        simp [strncmp, ih, List.cons_prefix_cons]
      · have hne : ¬ (y = x) := fun h => hxy h.symm
        by_cases hlt : x < y <;> simp [strncmp, hxy, hne, hlt, List.cons_prefix_cons]

theorem strncmp_key_iff (s key : String) :
    strncmp s.toList key.toList (strlen key) = 0 ↔ StartsWith s key := by
  have h : strlen key = key.toList.length := by
    cases key
    rfl
  rw [h]
  exact strncmp_eq_zero_iff _ _

theorem strncmp_left_eq_zero_iff (a b : List Char) :
    strncmp a b a.length = 0 ↔ a <+: b := by
  induction a generalizing b with
  | nil => simp [strncmp]
  | cons x as ih =>
    cases b with
    | nil => simp [strncmp]
    | cons y bs =>
      by_cases hxy : x = y
      · subst hxy
        simp [strncmp, ih, List.cons_prefix_cons]
      · by_cases hlt : x < y <;> simp [strncmp, hxy, hlt, List.cons_prefix_cons]

theorem strncmp_iface_iff (key s : String) :
    strncmp key.toList s.toList (strlen key) = 0 ↔ StartsWith s key := by
  have h : strlen key = key.toList.length := by
    cases key
    rfl
  rw [h]
  exact strncmp_left_eq_zero_iff _ _

theorem find_cons_pos (g : rate_upgrade_group) (rest : List rate_upgrade_group)
    (name : String) (h : StartsWith g.groupname name) :
    find_rate_upgrade_group (g :: rest) name = some (0, g) := by
  rw [find_rate_upgrade_group, if_pos ((strncmp_key_iff _ _).2 h)]

theorem find_cons_neg (g : rate_upgrade_group) (rest : List rate_upgrade_group)
    (name : String) (h : ¬ StartsWith g.groupname name) :
    find_rate_upgrade_group (g :: rest) name =
      (find_rate_upgrade_group rest name).map (fun p => (p.1 + 1, p.2)) := by
  rw [find_rate_upgrade_group, if_neg (fun h0 => h ((strncmp_key_iff _ _).1 h0))]

theorem find_none_iff (groups : List rate_upgrade_group) (name : String) :
    find_rate_upgrade_group groups name = none ↔
      ∀ g ∈ groups, ¬ StartsWith g.groupname name := by
  induction groups with
  | nil => simp [find_rate_upgrade_group]
  | cons g rest ih =>
    by_cases hg : StartsWith g.groupname name
    · rw [find_cons_pos g rest name hg]
      simp [hg]
    · rw [find_cons_neg g rest name hg]
      simp [hg, ih]

theorem find_some_split (groups : List rate_upgrade_group) (name : String)
    (pos : Nat) (g : rate_upgrade_group)
    (h : find_rate_upgrade_group groups name = some (pos, g)) :
    ∃ pre post, groups = pre ++ g :: post ∧ pre.length = pos ∧
      StartsWith g.groupname name ∧ ∀ g' ∈ pre, ¬ StartsWith g'.groupname name := by
  induction groups generalizing pos with
  | nil => simp [find_rate_upgrade_group] at h
  | cons g0 rest ih =>
    by_cases hg : StartsWith g0.groupname name
    · rw [find_cons_pos g0 rest name hg] at h
      simp only [Option.some.injEq, Prod.mk.injEq] at h
      obtain ⟨hp, hgg⟩ := h
      subst hp hgg
      exact ⟨[], rest, rfl, rfl, hg, by simp⟩
    · rw [find_cons_neg g0 rest name hg] at h
      cases hfind : find_rate_upgrade_group rest name with
      | none => rw [hfind] at h; simp at h
      | some q =>
        obtain ⟨p, g1⟩ := q
        rw [hfind] at h
        simp only [Option.map_some', Option.some.injEq, Prod.mk.injEq] at h
        obtain ⟨hp, hgg⟩ := h
        subst hp hgg
        obtain ⟨pre, post, hsplit, hlen, hstart, hpre⟩ := ih p hfind
        refine ⟨g0 :: pre, post, by simp [hsplit], by simp [hlen], hstart, ?_⟩
        intro g' hg'
        rcases List.mem_cons.1 hg' with h1 | h1
        · subst h1; exact hg
        · exact hpre g' h1

theorem find_split (pre post : List rate_upgrade_group) (g : rate_upgrade_group)
    (name : String) (hg : StartsWith g.groupname name)
    (hpre : ∀ g' ∈ pre, ¬ StartsWith g'.groupname name) :
    find_rate_upgrade_group (pre ++ g :: post) name = some (pre.length, g) := by
  induction pre with
  | nil => exact find_cons_pos g post name hg
  | cons g0 pre ih =>
    have h0 : ¬ StartsWith g0.groupname name := hpre g0 (List.mem_cons_self _ _)
    have h1 : ∀ g' ∈ pre, ¬ StartsWith g'.groupname name :=
      fun g' hg' => hpre g' (List.mem_cons_of_mem _ hg')
    rw [List.cons_append, find_cons_neg g0 _ name h0, ih h1]
    rfl

theorem eraseIdx_split {α : Type} (pre post : List α) (x : α) :
    (pre ++ x :: post).eraseIdx pre.length = pre ++ post := by
  induction pre with
  | nil => rfl
  | cons a pre ih => simp [List.eraseIdx, ih]

/-! ## Lemmas on the loops -/

theorem range_map_getD_eq_take {α : Type} (l : List α) (d : α) (n : Nat)
    (h : n ≤ l.length) :
    (List.range n).map (fun x => l.getD x d) = l.take n := by
  induction n with
  | zero => simp
  | succ n ih =>
    have hn : n < l.length := by omega
    rw [List.range_succ, List.map_append, ih (by omega), List.take_succ]
    simp [List.getD_eq_getElem?_getD, List.getElem?_eq_getElem hn]

theorem range_map_call_eq_take (f : fst_iface_info → Call) (l : List fst_iface_info)
    (n : Nat) (h : n ≤ l.length) :
    (List.range' 0 n).map (fun x => f (l.getD x default)) = (l.take n).map f := by
  rw [← range_map_getD_eq_take l default n h, List.map_map, List.range_eq_range']
  rfl

theorem add_group_loop_done (env : Collaborators) (m : String)
    (ifaces : List fst_iface_info) :
    ∀ (n i : Nat) (calls : List Call),
      (∀ t, t < n → env.fst_add_iface
        (calls ++ (List.range' i t).map (fun x => Call.add_iface m (ifaces.getD x default)))
        m (ifaces.getD (i + t) default) = 0) →
      add_group_loop env m ifaces n i calls =
        (none, calls ++
          (List.range' i n).map (fun x => Call.add_iface m (ifaces.getD x default))) := by
  intro n
  induction n with
  | zero => intro i calls _; simp [add_group_loop]
  | succ n ih =>
    intro i calls h
    have h0 := h 0 (by omega)
    simp only [List.range'_zero, List.map_nil, List.append_nil, Nat.add_zero] at h0
    rw [add_group_loop]
    simp only [h0, ne_eq, not_true_eq_false, if_false]
    rw [ih (i + 1)]
    · simp [List.range'_succ]
    · intro t ht
      have ht1 := h (t + 1) (by omega)
      simp only [List.range'_succ, List.map_cons] at ht1
      simpa [Nat.add_assoc, Nat.add_comm 1 t] using ht1

theorem add_group_loop_stop (env : Collaborators) (m : String)
    (ifaces : List fst_iface_info) :
    ∀ (j i : Nat) (n : Nat) (calls : List Call), j < n →
      (∀ t, t < j → env.fst_add_iface
        (calls ++ (List.range' i t).map (fun x => Call.add_iface m (ifaces.getD x default)))
        m (ifaces.getD (i + t) default) = 0) →
      env.fst_add_iface
        (calls ++ (List.range' i j).map (fun x => Call.add_iface m (ifaces.getD x default)))
        m (ifaces.getD (i + j) default) ≠ 0 →
      add_group_loop env m ifaces n i calls =
        (some (i + j), calls ++
          (List.range' i (j + 1)).map (fun x => Call.add_iface m (ifaces.getD x default))) := by
  intro j
  induction j with
  | zero =>
    intro i n calls hn _ hbad
    obtain ⟨n, rfl⟩ : ∃ k, n = k + 1 := ⟨n - 1, by omega⟩
    simp only [List.range'_zero, List.map_nil, List.append_nil, Nat.add_zero] at hbad
    rw [add_group_loop, if_pos hbad]
    simp [List.range'_succ]
  | succ j ih =>
    intro i n calls hn hok hbad
    obtain ⟨n, rfl⟩ : ∃ k, n = k + 1 := ⟨n - 1, by omega⟩
    have h0 := hok 0 (by omega)
    simp only [List.range'_zero, List.map_nil, List.append_nil, Nat.add_zero] at h0
    rw [add_group_loop]
    simp only [h0, ne_eq, not_true_eq_false, if_false]
    rw [ih (i + 1) n _ (by omega)]
    · simp [List.range'_succ, Nat.add_assoc, Nat.add_comm 1 j]
    · intro t ht
      have ht1 := hok (t + 1) (by omega)
      simp only [List.range'_succ, List.map_cons] at ht1
      simpa [Nat.add_assoc, Nat.add_comm 1 t] using ht1
    · simp only [List.range'_succ, List.map_cons] at hbad
      simpa [Nat.add_assoc, Nat.add_comm 1 j] using hbad

theorem add_group_error_add_calls (env : Collaborators) (ifaces : List fst_iface_info) :
    ∀ (i : Nat) (calls : List Call),
      add_group_error_add env ifaces i calls =
        calls ++ ((List.range i).reverse.map
          (fun x => Call.del_iface (ifaces.getD x default))) := by
  intro i
  induction i with
  | zero => intro calls; simp [add_group_error_add]
  | succ i ih =>
    intro calls
    rw [add_group_error_add, ih]
    simp [List.range_succ]

theorem range_reverse_map_call_eq (f : fst_iface_info → Call) (l : List fst_iface_info)
    (n : Nat) (h : n ≤ l.length) :
    (List.range n).reverse.map (fun x => f (l.getD x default)) = (l.take n).reverse.map f := by
  rw [← range_map_getD_eq_take l default n h, List.map_reverse, List.map_reverse,
    List.map_map]
  rfl

/-! ## Lemmas on the call projections -/

theorem calls_since_append (st st' : State) (new : List Call)
    (h : st'.calls = st.calls ++ new) : calls_since st st' = new := by
  simp [calls_since, h]

theorem add_iface_calls_append (a b : List Call) :
    add_iface_calls (a ++ b) = add_iface_calls a ++ add_iface_calls b := by
  simp [add_iface_calls, List.filterMap_append]

theorem del_iface_calls_append (a b : List Call) :
    del_iface_calls (a ++ b) = del_iface_calls a ++ del_iface_calls b := by
  simp [del_iface_calls, List.filterMap_append]

theorem dup_connection_calls_append (a b : List Call) :
    dup_connection_calls (a ++ b) = dup_connection_calls a ++ dup_connection_calls b := by
  simp [dup_connection_calls, List.filterMap_append]

theorem dedup_connection_calls_append (a b : List Call) :
    dedup_connection_calls (a ++ b) =
      dedup_connection_calls a ++ dedup_connection_calls b := by
  simp [dedup_connection_calls, List.filterMap_append]

theorem add_iface_calls_map_add (m : String) (l : List fst_iface_info) :
    add_iface_calls (l.map (Call.add_iface m)) = l.map (fun s => (m, s)) := by
  induction l with
  | nil => rfl
  | cons a l ih => simpa [add_iface_calls] using ih

theorem add_iface_calls_map_del (l : List fst_iface_info) :
    add_iface_calls (l.map Call.del_iface) = [] := by
  induction l with
  | nil => rfl
  | cons a l ih => simp [add_iface_calls]

theorem del_iface_calls_map_add (m : String) (l : List fst_iface_info) :
    del_iface_calls (l.map (Call.add_iface m)) = [] := by
  induction l with
  | nil => rfl
  | cons a l ih => simp [del_iface_calls]

theorem del_iface_calls_map_del (l : List fst_iface_info) :
    del_iface_calls (l.map Call.del_iface) = l := by
  induction l with
  | nil => rfl
  | cons a l ih => simpa [del_iface_calls] using ih

theorem dup_connection_calls_map_dup (m : String) (addr : List Nat)
    (l : List fst_iface_info) :
    dup_connection_calls (l.map (fun s => Call.dup_connection s m addr)) =
      l.map (fun s => (s, m, addr)) := by
  induction l with
  | nil => rfl
  | cons a l ih => simpa [dup_connection_calls] using ih

theorem dup_connection_calls_map_dedup (l : List fst_iface_info) :
    dup_connection_calls (l.map Call.dedup_connection) = [] := by
  induction l with
  | nil => rfl
  | cons a l ih => simp [dup_connection_calls]

theorem dedup_connection_calls_map_dup (m : String) (addr : List Nat)
    (l : List fst_iface_info) :
    dedup_connection_calls (l.map (fun s => Call.dup_connection s m addr)) = [] := by
  induction l with
  | nil => rfl
  | cons a l ih => simp [dedup_connection_calls]

theorem dedup_connection_calls_map_dedup (l : List fst_iface_info) :
    dedup_connection_calls (l.map Call.dedup_connection) = l := by
  induction l with
  | nil => rfl
  | cons a l ih => simpa [dedup_connection_calls] using ih

/-! ## `fst_rate_upgrade_add_group`: the complete outcome -/

theorem add_group_fail_exact (env : Collaborators) (st : State) (group : fst_group_info)
    (m : String) (slaves : List fst_iface_info) (j : Nat)
    (hnew : ∀ g ∈ st.groups, ¬ StartsWith g.groupname group.id)
    (hcfg : Configured env st group m slaves)
    (hj : j < slaves.length)
    (hok : ∀ t, t < j →
      env.fst_add_iface (add_history st group m slaves t) m (slaves.getD t default) = 0)
    (hbad : env.fst_add_iface (add_history st group m slaves j) m
      (slaves.getD j default) ≠ 0) :
    fst_rate_upgrade_add_group env st group =
      (-1, { st with calls := add_history st group m slaves (j + 1) ++
              (slaves.take j).reverse.map Call.del_iface }) := by
  obtain ⟨hm, hs⟩ := hcfg
  have hfind : find_rate_upgrade_group st.g_rateupg_mgr.groups group.id = none :=
    (find_none_iff _ _).2 hnew
  have hpos : ¬ ((slaves.length : Int) < 0) := by omega
  have hne : ¬ ((slaves.length : Int) = 0) := by omega
  have hloop := add_group_loop_stop env m slaves j 0 slaves.length
    ((st.calls ++ [Call.get_master group.id]) ++ [Call.get_slaves group.id m]) hj
    (by
      intro t ht
      have := hok t ht
      rw [range_map_call_eq_take (Call.add_iface m) slaves t (by omega)]
      simpa [add_history] using this)
    (by
      rw [range_map_call_eq_take (Call.add_iface m) slaves j (by omega)]
      simpa [add_history] using hbad)
  rw [range_map_call_eq_take (Call.add_iface m) slaves (j + 1) (by omega)] at hloop
  simp only [Nat.zero_add] at hloop
  unfold fst_rate_upgrade_add_group
  simp only [hfind, hm, strdup, hs, hpos, hne, if_false, Int.toNat_ofNat, hloop]
  rw [add_group_error_add_calls,
    range_reverse_map_call_eq Call.del_iface slaves j (by omega)]
  simp [add_history]

/-! ## Lemmas on the loops of the connection fan-out -/

theorem on_connect_loop_done (env : Collaborators) (g : rate_upgrade_group)
    (addr : List Nat) :
    ∀ (n i : Nat) (calls : List Call),
      (∀ t, t < n → env.fst_dup_connection
        (calls ++ (List.range' i t).map
          (fun x => Call.dup_connection (g.slaves.getD x default) g.master addr))
        (g.slaves.getD (i + t) default) g.master addr = 0) →
      on_connect_loop env g addr n i calls =
        (none, calls ++ (List.range' i n).map
          (fun x => Call.dup_connection (g.slaves.getD x default) g.master addr)) := by
  intro n
  induction n with
  | zero => intro i calls _; simp [on_connect_loop]
  | succ n ih =>
    intro i calls h
    have h0 := h 0 (by omega)
    simp only [List.range'_zero, List.map_nil, List.append_nil, Nat.add_zero] at h0
    rw [on_connect_loop]
    simp only [h0, ne_eq, not_true_eq_false, if_false]
    rw [ih (i + 1)]
    · simp [List.range'_succ]
    · intro t ht
      have ht1 := h (t + 1) (by omega)
      simp only [List.range'_succ, List.map_cons] at ht1
      simpa [Nat.add_assoc, Nat.add_comm 1 t] using ht1

theorem on_connect_loop_stop (env : Collaborators) (g : rate_upgrade_group)
    (addr : List Nat) :
    ∀ (j i : Nat) (n : Nat) (calls : List Call), j < n →
      (∀ t, t < j → env.fst_dup_connection
        (calls ++ (List.range' i t).map
          (fun x => Call.dup_connection (g.slaves.getD x default) g.master addr))
        (g.slaves.getD (i + t) default) g.master addr = 0) →
      env.fst_dup_connection
        (calls ++ (List.range' i j).map
          (fun x => Call.dup_connection (g.slaves.getD x default) g.master addr))
        (g.slaves.getD (i + j) default) g.master addr ≠ 0 →
      on_connect_loop env g addr n i calls =
        (some (i + j), calls ++ (List.range' i (j + 1)).map
          (fun x => Call.dup_connection (g.slaves.getD x default) g.master addr)) := by
  intro j
  induction j with
  | zero =>
    intro i n calls hn _ hbad
    obtain ⟨n, rfl⟩ : ∃ k, n = k + 1 := ⟨n - 1, by omega⟩
    simp only [List.range'_zero, List.map_nil, List.append_nil, Nat.add_zero] at hbad
    rw [on_connect_loop, if_pos hbad]
    simp [List.range'_succ]
  | succ j ih =>
    intro i n calls hn hok hbad
    obtain ⟨n, rfl⟩ : ∃ k, n = k + 1 := ⟨n - 1, by omega⟩
    have h0 := hok 0 (by omega)
    simp only [List.range'_zero, List.map_nil, List.append_nil, Nat.add_zero] at h0
    rw [on_connect_loop]
    simp only [h0, ne_eq, not_true_eq_false, if_false]
    rw [ih (i + 1) n _ (by omega)]
    · simp [List.range'_succ, Nat.add_assoc, Nat.add_comm 1 j]
    · intro t ht
      have ht1 := hok (t + 1) (by omega)
      simp only [List.range'_succ, List.map_cons] at ht1
      simpa [Nat.add_assoc, Nat.add_comm 1 t] using ht1
    · simp only [List.range'_succ, List.map_cons] at hbad
      simpa [Nat.add_assoc, Nat.add_comm 1 j] using hbad

theorem on_connect_error_connect_calls (env : Collaborators) (g : rate_upgrade_group) :
    ∀ (i : Nat) (calls : List Call),
      on_connect_error_connect env g i calls =
        calls ++ ((List.range i).reverse.map
          (fun x => Call.dedup_connection (g.slaves.getD x default))) := by
  intro i
  induction i with
  | zero => intro calls; simp [on_connect_error_connect]
  | succ i ih =>
    intro calls
    rw [on_connect_error_connect, ih]
    simp [List.range_succ]

theorem on_disconnect_loop_calls (env : Collaborators) (g : rate_upgrade_group) :
    ∀ (n i : Nat) (res : Int) (calls : List Call),
      (on_disconnect_loop env g n i res calls).2 =
        calls ++ (List.range' i n).map
          (fun x => Call.dedup_connection (g.slaves.getD x default)) := by
  intro n
  induction n with
  | zero => intro i res calls; simp [on_disconnect_loop]
  | succ n ih =>
    intro i res calls
    rw [on_disconnect_loop]
    split <;> rw [ih] <;> simp [List.range'_succ]

theorem on_disconnect_loop_res (env : Collaborators) (g : rate_upgrade_group) :
    ∀ (n i : Nat) (res : Int) (calls : List Call),
      ((∃ t, t < n ∧ env.fst_dedup_connection
          (calls ++ (List.range' i t).map
            (fun x => Call.dedup_connection (g.slaves.getD x default)))
          (g.slaves.getD (i + t) default) ≠ 0) →
        (on_disconnect_loop env g n i res calls).1 = -1) ∧
      ((∀ t, t < n → env.fst_dedup_connection
          (calls ++ (List.range' i t).map
            (fun x => Call.dedup_connection (g.slaves.getD x default)))
          (g.slaves.getD (i + t) default) = 0) →
        (on_disconnect_loop env g n i res calls).1 = res) := by
  intro n
  induction n with
  | zero =>
    intro i res calls
    refine ⟨?_, fun _ => by simp [on_disconnect_loop]⟩
    rintro ⟨t, ht, _⟩
    omega
  | succ n ih =>
    intro i res calls
    have shift : ∀ t, env.fst_dedup_connection
        (calls ++ (List.range' i (t + 1)).map
          (fun x => Call.dedup_connection (g.slaves.getD x default)))
        (g.slaves.getD (i + (t + 1)) default) =
        env.fst_dedup_connection
        ((calls ++ [Call.dedup_connection (g.slaves.getD i default)]) ++
          (List.range' (i + 1) t).map
            (fun x => Call.dedup_connection (g.slaves.getD x default)))
        (g.slaves.getD (i + 1 + t) default) := by
      intro t
      simp [List.range'_succ, Nat.add_assoc, Nat.add_comm 1 t]
    by_cases h0 : env.fst_dedup_connection calls (g.slaves.getD i default) = 0
    · rw [on_disconnect_loop]
      simp only [h0, ne_eq, not_true_eq_false, if_false]
      obtain ⟨ih1, ih2⟩ := ih (i + 1) res
        (calls ++ [Call.dedup_connection (g.slaves.getD i default)])
      constructor
      · rintro ⟨t, ht, hbad⟩
        cases t with
        | zero =>
          simp only [List.range'_zero, List.map_nil, List.append_nil, Nat.add_zero] at hbad
          exact absurd h0 hbad
        | succ t =>
          rw [shift t] at hbad
          exact ih1 ⟨t, by omega, hbad⟩
      · intro hall
        apply ih2
        intro t ht
        rw [← shift t]
        exact hall (t + 1) (by omega)
    · rw [on_disconnect_loop, if_pos h0]
      obtain ⟨ih1, ih2⟩ := ih (i + 1) (-1)
        (calls ++ [Call.dedup_connection (g.slaves.getD i default)])
      constructor
      · intro _
        by_cases hrest : ∃ t, t < n ∧ env.fst_dedup_connection
            ((calls ++ [Call.dedup_connection (g.slaves.getD i default)]) ++
              (List.range' (i + 1) t).map
                (fun x => Call.dedup_connection (g.slaves.getD x default)))
            (g.slaves.getD (i + 1 + t) default) ≠ 0
        · exact ih1 hrest
        · apply ih2
          intro t ht
          by_contra hne
          exact hrest ⟨t, ht, hne⟩
      · intro hall
        have := hall 0 (by omega)
        simp only [List.range'_zero, List.map_nil, List.append_nil, Nat.add_zero] at this
        exact absurd this h0

theorem del_group_loop_calls (env : Collaborators) (slaves : List fst_iface_info) :
    ∀ (n i : Nat) (calls : List Call),
      del_group_loop env slaves n i calls =
        calls ++ (List.range' i n).map
          (fun x => Call.del_iface (slaves.getD x default)) := by
  intro n
  induction n with
  | zero => intro i calls; simp [del_group_loop]
  | succ n ih =>
    intro i calls
    rw [del_group_loop]
    split <;> rw [ih] <;> simp [List.range'_succ]

/-! ## The complete outcome of the other operations -/

theorem add_group_ok_exact (env : Collaborators) (st : State) (group : fst_group_info)
    (m : String) (slaves : List fst_iface_info)
    (hnew : ∀ g ∈ st.groups, ¬ StartsWith g.groupname group.id)
    (hcfg : Configured env st group m slaves)
    (hn : 1 ≤ slaves.length)
    (hok : ∀ t, t < slaves.length →
      env.fst_add_iface (add_history st group m slaves t) m (slaves.getD t default) = 0) :
    fst_rate_upgrade_add_group env st group =
      (0, { st with
            g_rateupg_mgr :=
              { st.g_rateupg_mgr with
                groups := st.g_rateupg_mgr.groups ++
                  [{ groupname := group.id, master := m, slaves := slaves,
                     slave_cnt := (slaves.length : Int) }] },
            calls := add_history st group m slaves slaves.length }) := by
  obtain ⟨hm, hs⟩ := hcfg
  have hfind : find_rate_upgrade_group st.g_rateupg_mgr.groups group.id = none :=
    (find_none_iff _ _).2 hnew
  have hpos : ¬ ((slaves.length : Int) < 0) := by omega
  have hne : ¬ ((slaves.length : Int) = 0) := by omega
  have hloop := add_group_loop_done env m slaves slaves.length 0
    ((st.calls ++ [Call.get_master group.id]) ++ [Call.get_slaves group.id m])
    (by
      intro t ht
      have := hok t ht
      rw [range_map_call_eq_take (Call.add_iface m) slaves t (by omega)]
      simpa [add_history] using this)
  rw [range_map_call_eq_take (Call.add_iface m) slaves slaves.length (le_refl _)] at hloop
  unfold fst_rate_upgrade_add_group
  simp only [hfind, hm, strdup, hs, hpos, hne, if_false, Int.toNat_ofNat, hloop]
  simp [add_history]

theorem del_group_exact (env : Collaborators) (st : State) (group : fst_group_info)
    (pos : Nat) (g : rate_upgrade_group) (pre post : List rate_upgrade_group)
    (hfind : find_rate_upgrade_group st.groups group.id = some (pos, g))
    (hcnt : g.slave_cnt = (g.slaves.length : Int))
    (hsplit : st.groups = pre ++ g :: post) (hlen : pre.length = pos) :
    fst_rate_upgrade_del_group env st group =
      (0, { st with
            g_rateupg_mgr := { st.g_rateupg_mgr with groups := pre ++ post },
            calls := st.calls ++ g.slaves.map Call.del_iface }) := by
  have hfind' : find_rate_upgrade_group st.g_rateupg_mgr.groups group.id = some (pos, g) :=
    hfind
  have hsplit' : st.g_rateupg_mgr.groups = pre ++ g :: post := hsplit
  unfold fst_rate_upgrade_del_group
  simp only [hfind', hcnt, Int.toNat_ofNat, del_group_loop_calls,
    deinit_rate_upgrade_group]
  rw [range_map_call_eq_take Call.del_iface g.slaves g.slaves.length (le_refl _),
    hsplit', ← hlen, eraseIdx_split]
  simp

theorem on_connect_fail_exact (env : Collaborators) (st : State) (group : fst_group_info)
    (iface : String) (addr : List Nat) (pos : Nat) (g : rate_upgrade_group) (j : Nat)
    (hfind : find_rate_upgrade_group st.groups group.id = some (pos, g))
    (hcnt : g.slave_cnt = (g.slaves.length : Int))
    (hmaster : StartsWith g.master iface)
    (hj : j < g.slaves.length)
    (hok : ∀ t, t < j → env.fst_dup_connection (dup_history st g addr t)
      (g.slaves.getD t default) g.master addr = 0)
    (hbad : env.fst_dup_connection (dup_history st g addr j)
      (g.slaves.getD j default) g.master addr ≠ 0) :
    fst_rate_upgrade_on_connect env st group iface addr =
      (-1, { st with calls := dup_history st g addr (j + 1) ++
              (g.slaves.take j).reverse.map Call.dedup_connection }) := by
  have hfind' : find_rate_upgrade_group st.g_rateupg_mgr.groups group.id = some (pos, g) :=
    hfind
  have hloop := on_connect_loop_stop env g addr j 0 g.slaves.length st.calls hj
    (by
      intro t ht
      have := hok t ht
      rw [range_map_call_eq_take (fun s => Call.dup_connection s g.master addr)
        g.slaves t (by omega)]
      simpa [dup_history] using this)
    (by
      rw [range_map_call_eq_take (fun s => Call.dup_connection s g.master addr)
        g.slaves j (by omega)]
      simpa [dup_history] using hbad)
  rw [range_map_call_eq_take (fun s => Call.dup_connection s g.master addr)
    g.slaves (j + 1) (by omega)] at hloop
  simp only [Nat.zero_add] at hloop
  unfold fst_rate_upgrade_on_connect
  simp only [hfind', (strncmp_iface_iff _ _).2 hmaster, if_true, hcnt, Int.toNat_ofNat, hloop]
  rw [on_connect_error_connect_calls,
    range_reverse_map_call_eq Call.dedup_connection g.slaves j (by omega)]
  simp [dup_history]

theorem on_connect_ok_exact (env : Collaborators) (st : State) (group : fst_group_info)
    (iface : String) (addr : List Nat) (pos : Nat) (g : rate_upgrade_group)
    (hfind : find_rate_upgrade_group st.groups group.id = some (pos, g))
    (hcnt : g.slave_cnt = (g.slaves.length : Int))
    (hmaster : StartsWith g.master iface)
    (hok : ∀ t, t < g.slaves.length → env.fst_dup_connection (dup_history st g addr t)
      (g.slaves.getD t default) g.master addr = 0) :
    fst_rate_upgrade_on_connect env st group iface addr =
      (0, { st with calls := st.calls ++
              g.slaves.map (fun s => Call.dup_connection s g.master addr) }) := by
  have hfind' : find_rate_upgrade_group st.g_rateupg_mgr.groups group.id = some (pos, g) :=
    hfind
  have hloop := on_connect_loop_done env g addr g.slaves.length 0 st.calls
    (by
      intro t ht
      have := hok t ht
      rw [range_map_call_eq_take (fun s => Call.dup_connection s g.master addr)
        g.slaves t (by omega)]
      simpa [dup_history] using this)
  rw [range_map_call_eq_take (fun s => Call.dup_connection s g.master addr)
    g.slaves g.slaves.length (le_refl _)] at hloop
  unfold fst_rate_upgrade_on_connect
  simp only [hfind', (strncmp_iface_iff _ _).2 hmaster, if_true, hcnt, Int.toNat_ofNat, hloop]
  simp

theorem on_connect_skip (env : Collaborators) (st : State) (group : fst_group_info)
    (iface : String) (addr : List Nat)
    (h : find_rate_upgrade_group st.groups group.id = none ∨
      ∃ pos g, find_rate_upgrade_group st.groups group.id = some (pos, g) ∧
        ¬ StartsWith g.master iface) :
    fst_rate_upgrade_on_connect env st group iface addr = (0, st) := by
  unfold fst_rate_upgrade_on_connect
  rcases h with h | ⟨pos, g, h, hm⟩
  · have h' : find_rate_upgrade_group st.g_rateupg_mgr.groups group.id = none := h
    simp only [h']
  · have h' : find_rate_upgrade_group st.g_rateupg_mgr.groups group.id = some (pos, g) := h
    have h0 : ¬ strncmp iface.toList g.master.toList (strlen iface) = 0 :=
      fun h0 => hm ((strncmp_iface_iff _ _).1 h0)
    simp only [h', h0, if_false]

theorem on_disconnect_exact (env : Collaborators) (st : State) (group : fst_group_info)
    (iface : String) (addr : List Nat) (pos : Nat) (g : rate_upgrade_group)
    (hfind : find_rate_upgrade_group st.groups group.id = some (pos, g))
    (hcnt : g.slave_cnt = (g.slaves.length : Int))
    (hmaster : StartsWith g.master iface) :
    fst_rate_upgrade_on_disconnect env st group iface addr =
      ((on_disconnect_loop env g g.slaves.length 0 0 st.calls).1,
        { st with calls := st.calls ++ g.slaves.map Call.dedup_connection }) := by
  have hfind' : find_rate_upgrade_group st.g_rateupg_mgr.groups group.id = some (pos, g) :=
    hfind
  unfold fst_rate_upgrade_on_disconnect
  simp only [hfind', (strncmp_iface_iff _ _).2 hmaster, if_true, hcnt, Int.toNat_ofNat,
    on_disconnect_loop_calls]
  rw [range_map_call_eq_take Call.dedup_connection g.slaves g.slaves.length (le_refl _)]
  simp

/-! ## Claims on the rollback of `fst_rate_upgrade_add_group` -/

/-- C1. Rollback of `add_group`, which calls are made. In a registry where no
stored group name starts with the group identifier, with a configuration that
gives a master `m` and the slaves `slaves`, and with `fst_add_iface`
succeeding on the slaves at indices below `j` and failing on the slave at
index `j` (the claim's `k` is `j + 1`): the operation returns `-1`, the group
collection is unchanged and the lookup of the identifier still finds nothing,
`fst_add_iface` was called on exactly the first `j + 1` slaves in order, and
the `fst_del_iface` calls are, up to order, exactly the first `j` slaves, each
once. `fst_del_iface` is arbitrary. -/
theorem add_group_rollback_calls (env : Collaborators) (st : State)
    (group : fst_group_info) (m : String) (slaves : List fst_iface_info) (j : Nat)
    (hnew : ∀ g ∈ st.groups, ¬ StartsWith g.groupname group.id)
    (hcfg : Configured env st group m slaves)
    (hj : j < slaves.length)
    (hok : ∀ t, t < j →
      env.fst_add_iface (add_history st group m slaves t) m (slaves.getD t default) = 0)
    (hbad : env.fst_add_iface (add_history st group m slaves j) m
      (slaves.getD j default) ≠ 0) :
    (fst_rate_upgrade_add_group env st group).1 = -1 ∧
    (fst_rate_upgrade_add_group env st group).2.groups = st.groups ∧
    find_rate_upgrade_group (fst_rate_upgrade_add_group env st group).2.groups group.id
      = none ∧
    add_iface_calls (calls_since st (fst_rate_upgrade_add_group env st group).2) =
      (slaves.take (j + 1)).map (fun s => (m, s)) ∧
    List.Perm (del_iface_calls (calls_since st (fst_rate_upgrade_add_group env st group).2))
      (slaves.take j) := by
  rw [add_group_fail_exact env st group m slaves j hnew hcfg hj hok hbad]
  refine ⟨rfl, rfl, (find_none_iff _ _).2 hnew, ?_, ?_⟩
  · rw [calls_since_append st _
      ([Call.get_master group.id, Call.get_slaves group.id m] ++
        (slaves.take (j + 1)).map (Call.add_iface m) ++
        (slaves.take j).reverse.map Call.del_iface) (by simp [add_history])]
    rw [add_iface_calls_append, add_iface_calls_append, add_iface_calls_map_add,
      add_iface_calls_map_del]
    simp [add_iface_calls]
  · rw [calls_since_append st _
      ([Call.get_master group.id, Call.get_slaves group.id m] ++
        (slaves.take (j + 1)).map (Call.add_iface m) ++
        (slaves.take j).reverse.map Call.del_iface) (by simp [add_history])]
    rw [del_iface_calls_append, del_iface_calls_append, del_iface_calls_map_add,
      del_iface_calls_map_del]
    simp [del_iface_calls]

/-- Witness of C1: the registry holds `A` and `AB`, the group `G1` is
configured with `wlan1`, `wlan2`, `wlan3`, and the third bind fails. -/
theorem add_group_rollback_calls_witness :
    (fst_rate_upgrade_add_group (sampleEnv ["wlan3"] ["wlan1"] [] []) sampleTwo ⟨"G1"⟩).1
      = -1 ∧
    (fst_rate_upgrade_add_group (sampleEnv ["wlan3"] ["wlan1"] [] []) sampleTwo
      ⟨"G1"⟩).2.groups = sampleTwo.groups ∧
    find_rate_upgrade_group (fst_rate_upgrade_add_group (sampleEnv ["wlan3"] ["wlan1"] [] [])
      sampleTwo ⟨"G1"⟩).2.groups "G1" = none ∧
    add_iface_calls (calls_since sampleTwo (fst_rate_upgrade_add_group
      (sampleEnv ["wlan3"] ["wlan1"] [] []) sampleTwo ⟨"G1"⟩).2) =
      (sampleSlaves.take (2 + 1)).map (fun s => ("wlan0", s)) ∧
    List.Perm (del_iface_calls (calls_since sampleTwo (fst_rate_upgrade_add_group
      (sampleEnv ["wlan3"] ["wlan1"] [] []) sampleTwo ⟨"G1"⟩).2)) (sampleSlaves.take 2) :=
  add_group_rollback_calls (sampleEnv ["wlan3"] ["wlan1"] [] []) sampleTwo ⟨"G1"⟩
    "wlan0" sampleSlaves 2 (by decide) ⟨rfl, rfl⟩ (by decide) (by decide) (by decide)

/-- C2, as stated, fails: with the slaves `wlan1`, `wlan2`, `wlan3` and the
third bind failing, every condition of the claim holds and the rollback calls
`fst_del_iface` on `wlan2` and then on `wlan1`, which is not the order in
which they were added. -/
theorem add_group_rollback_order_counterexample :
    (∀ g ∈ sampleInit.groups, ¬ StartsWith g.groupname "G1") ∧
    Configured (sampleEnv ["wlan3"] [] [] []) sampleInit ⟨"G1"⟩ "wlan0" sampleSlaves ∧
    2 < sampleSlaves.length ∧
    (∀ t, t < 2 → (sampleEnv ["wlan3"] [] [] []).fst_add_iface
      (add_history sampleInit ⟨"G1"⟩ "wlan0" sampleSlaves t) "wlan0"
      (sampleSlaves.getD t default) = 0) ∧
    (sampleEnv ["wlan3"] [] [] []).fst_add_iface
      (add_history sampleInit ⟨"G1"⟩ "wlan0" sampleSlaves 2) "wlan0"
      (sampleSlaves.getD 2 default) ≠ 0 ∧
    del_iface_calls (calls_since sampleInit
      (fst_rate_upgrade_add_group (sampleEnv ["wlan3"] [] [] []) sampleInit ⟨"G1"⟩).2) =
      [⟨"wlan2", 2⟩, ⟨"wlan1", 1⟩] ∧
    del_iface_calls (calls_since sampleInit
      (fst_rate_upgrade_add_group (sampleEnv ["wlan3"] [] [] []) sampleInit ⟨"G1"⟩).2) ≠
      sampleSlaves.take 2 :=
  ⟨by decide, ⟨rfl, rfl⟩, by decide, by decide, by decide, by decide, by decide⟩

/-- C2, amended. Under the conditions of C1, the `fst_del_iface` calls of the
rollback are the first `j` slaves in the reverse of the order in which they
were added: `s_(k-1), ..., s_2, s_1` with `k = j + 1`. -/
theorem add_group_rollback_order_reversed (env : Collaborators) (st : State)
    (group : fst_group_info) (m : String) (slaves : List fst_iface_info) (j : Nat)
    (hnew : ∀ g ∈ st.groups, ¬ StartsWith g.groupname group.id)
    (hcfg : Configured env st group m slaves)
    (hj : j < slaves.length)
    (hok : ∀ t, t < j →
      env.fst_add_iface (add_history st group m slaves t) m (slaves.getD t default) = 0)
    (hbad : env.fst_add_iface (add_history st group m slaves j) m
      (slaves.getD j default) ≠ 0) :
    del_iface_calls (calls_since st (fst_rate_upgrade_add_group env st group).2) =
      (slaves.take j).reverse := by
  rw [add_group_fail_exact env st group m slaves j hnew hcfg hj hok hbad]
  rw [calls_since_append st _
    ([Call.get_master group.id, Call.get_slaves group.id m] ++
      (slaves.take (j + 1)).map (Call.add_iface m) ++
      (slaves.take j).reverse.map Call.del_iface) (by simp [add_history])]
  rw [del_iface_calls_append, del_iface_calls_append, del_iface_calls_map_add,
    del_iface_calls_map_del]
  simp [del_iface_calls]

/-- Witness of the amended C2, on the input of the counterexample. -/
theorem add_group_rollback_order_reversed_witness :
    del_iface_calls (calls_since sampleInit
      (fst_rate_upgrade_add_group (sampleEnv ["wlan3"] [] [] []) sampleInit ⟨"G1"⟩).2) =
      (sampleSlaves.take 2).reverse :=
  add_group_rollback_order_reversed (sampleEnv ["wlan3"] [] [] []) sampleInit ⟨"G1"⟩
    "wlan0" sampleSlaves 2 (by decide) ⟨rfl, rfl⟩ (by decide) (by decide) (by decide)

/-! ## Claims on the rollback of `fst_rate_upgrade_on_connect` -/

/-- C3. Rollback of `on_connect`, which calls are made. When the lookup of the
group identifier finds a group `g` whose master starts with the source
interface, and `fst_dup_connection` succeeds on the slaves at indices below
`j` and fails on the slave at index `j` (the claim's `j` is `j + 1` here):
the operation returns `-1`, `fst_dup_connection` was called on exactly the
first `j + 1` slaves in declared order with the master of the group and the
peer address, and the `fst_dedup_connection` calls are, up to order, exactly
the first `j` slaves, each once. `fst_dedup_connection` is arbitrary. -/
theorem on_connect_rollback_calls (env : Collaborators) (st : State)
    (group : fst_group_info) (iface : String) (addr : List Nat)
    (pos : Nat) (g : rate_upgrade_group) (j : Nat)
    (hfind : find_rate_upgrade_group st.groups group.id = some (pos, g))
    (hcnt : g.slave_cnt = (g.slaves.length : Int))
    (hmaster : StartsWith g.master iface)
    (hj : j < g.slaves.length)
    (hok : ∀ t, t < j → env.fst_dup_connection (dup_history st g addr t)
      (g.slaves.getD t default) g.master addr = 0)
    (hbad : env.fst_dup_connection (dup_history st g addr j)
      (g.slaves.getD j default) g.master addr ≠ 0) :
    (fst_rate_upgrade_on_connect env st group iface addr).1 = -1 ∧
    dup_connection_calls
        (calls_since st (fst_rate_upgrade_on_connect env st group iface addr).2) =
      (g.slaves.take (j + 1)).map (fun s => (s, g.master, addr)) ∧
    List.Perm
      (dedup_connection_calls
        (calls_since st (fst_rate_upgrade_on_connect env st group iface addr).2))
      (g.slaves.take j) := by
  rw [on_connect_fail_exact env st group iface addr pos g j hfind hcnt hmaster hj hok hbad]
  have hcalls := calls_since_append st
    { st with calls := dup_history st g addr (j + 1) ++
        (g.slaves.take j).reverse.map Call.dedup_connection }
    ((g.slaves.take (j + 1)).map (fun s => Call.dup_connection s g.master addr) ++
      (g.slaves.take j).reverse.map Call.dedup_connection) (by simp [dup_history])
  refine ⟨rfl, ?_, ?_⟩
  · rw [hcalls, dup_connection_calls_append, dup_connection_calls_map_dup,
      dup_connection_calls_map_dedup]
    simp
  · rw [hcalls, dedup_connection_calls_append, dedup_connection_calls_map_dup,
      dedup_connection_calls_map_dedup]
    simp

/-- Witness of C3: in the registry holding `A` and `AB`, a connect on `wlan0`
for the group `AB` whose third duplication fails. -/
theorem on_connect_rollback_calls_witness :
    (fst_rate_upgrade_on_connect (sampleEnv [] [] ["wlan3"] ["wlan1"]) sampleTwo ⟨"AB"⟩
      "wlan0" [2, 0, 0, 0, 0, 1]).1 = -1 ∧
    dup_connection_calls (calls_since sampleTwo
      (fst_rate_upgrade_on_connect (sampleEnv [] [] ["wlan3"] ["wlan1"]) sampleTwo ⟨"AB"⟩
        "wlan0" [2, 0, 0, 0, 0, 1]).2) =
      ((sampleGroup "AB").slaves.take (2 + 1)).map
        (fun s => (s, (sampleGroup "AB").master, [2, 0, 0, 0, 0, 1])) ∧
    List.Perm
      (dedup_connection_calls (calls_since sampleTwo
        (fst_rate_upgrade_on_connect (sampleEnv [] [] ["wlan3"] ["wlan1"]) sampleTwo ⟨"AB"⟩
          "wlan0" [2, 0, 0, 0, 0, 1]).2))
      ((sampleGroup "AB").slaves.take 2) :=
  on_connect_rollback_calls (sampleEnv [] [] ["wlan3"] ["wlan1"]) sampleTwo ⟨"AB"⟩
    "wlan0" [2, 0, 0, 0, 0, 1] 1 (sampleGroup "AB") 2
    (by decide) (by decide) (by decide) (by decide) (by decide) (by decide)

/-- C4, as stated, fails: in the registry holding `A` and `AB`, a connect on
`wlan0` for the group `AB` whose third duplication fails meets every condition
of the claim and undoes `wlan2` first and `wlan1` second, which is not the
order of the duplications. -/
theorem on_connect_rollback_order_counterexample :
    find_rate_upgrade_group sampleTwo.groups "AB" = some (1, sampleGroup "AB") ∧
    (sampleGroup "AB").slave_cnt = ((sampleGroup "AB").slaves.length : Int) ∧
    StartsWith (sampleGroup "AB").master "wlan0" ∧
    2 < (sampleGroup "AB").slaves.length ∧
    (∀ t, t < 2 → (sampleEnv [] [] ["wlan3"] []).fst_dup_connection
      (dup_history sampleTwo (sampleGroup "AB") [2, 0, 0, 0, 0, 1] t)
      ((sampleGroup "AB").slaves.getD t default) (sampleGroup "AB").master
      [2, 0, 0, 0, 0, 1] = 0) ∧
    (sampleEnv [] [] ["wlan3"] []).fst_dup_connection
      (dup_history sampleTwo (sampleGroup "AB") [2, 0, 0, 0, 0, 1] 2)
      ((sampleGroup "AB").slaves.getD 2 default) (sampleGroup "AB").master
      [2, 0, 0, 0, 0, 1] ≠ 0 ∧
    dedup_connection_calls (calls_since sampleTwo
      (fst_rate_upgrade_on_connect (sampleEnv [] [] ["wlan3"] []) sampleTwo ⟨"AB"⟩
        "wlan0" [2, 0, 0, 0, 0, 1]).2) = [⟨"wlan2", 2⟩, ⟨"wlan1", 1⟩] ∧
    dedup_connection_calls (calls_since sampleTwo
      (fst_rate_upgrade_on_connect (sampleEnv [] [] ["wlan3"] []) sampleTwo ⟨"AB"⟩
        "wlan0" [2, 0, 0, 0, 0, 1]).2) ≠ (sampleGroup "AB").slaves.take 2 :=
  ⟨by decide, by decide, by decide, by decide, by decide, by decide, by decide, by decide⟩

/-- C4, amended. When the duplication fails at index `j` after succeeding on
the slaves below, the `fst_dedup_connection` calls of the rollback are the
first `j` slaves in the reverse of the order of the duplications:
`s_(j), ..., s_2, s_1` in the numbering from one. -/
theorem on_connect_rollback_order_reversed (env : Collaborators) (st : State)
    (group : fst_group_info) (iface : String) (addr : List Nat)
    (pos : Nat) (g : rate_upgrade_group) (j : Nat)
    (hfind : find_rate_upgrade_group st.groups group.id = some (pos, g))
    (hcnt : g.slave_cnt = (g.slaves.length : Int))
    (hmaster : StartsWith g.master iface)
    (hj : j < g.slaves.length)
    (hok : ∀ t, t < j → env.fst_dup_connection (dup_history st g addr t)
      (g.slaves.getD t default) g.master addr = 0)
    (hbad : env.fst_dup_connection (dup_history st g addr j)
      (g.slaves.getD j default) g.master addr ≠ 0) :
    dedup_connection_calls
        (calls_since st (fst_rate_upgrade_on_connect env st group iface addr).2) =
      (g.slaves.take j).reverse := by
  rw [on_connect_fail_exact env st group iface addr pos g j hfind hcnt hmaster hj hok hbad]
  rw [calls_since_append st _
    ((g.slaves.take (j + 1)).map (fun s => Call.dup_connection s g.master addr) ++
      (g.slaves.take j).reverse.map Call.dedup_connection) (by simp [dup_history])]
  rw [dedup_connection_calls_append, dedup_connection_calls_map_dup,
    dedup_connection_calls_map_dedup]
  simp

/-- Witness of the amended C4, on the input of the counterexample. -/
theorem on_connect_rollback_order_reversed_witness :
    dedup_connection_calls (calls_since sampleTwo
      (fst_rate_upgrade_on_connect (sampleEnv [] [] ["wlan3"] []) sampleTwo ⟨"AB"⟩
        "wlan0" [2, 0, 0, 0, 0, 1]).2) = ((sampleGroup "AB").slaves.take 2).reverse :=
  on_connect_rollback_order_reversed (sampleEnv [] [] ["wlan3"] []) sampleTwo ⟨"AB"⟩
    "wlan0" [2, 0, 0, 0, 0, 1] 1 (sampleGroup "AB") 2
    (by decide) (by decide) (by decide) (by decide) (by decide) (by decide)

/-! ## Claims on the group lifecycle -/

/-- C5. Full success of `add_group`. In a registry where no stored group name
starts with the group identifier, with a configuration that gives the master
`m` and at least one slave, and with `fst_add_iface` succeeding on every
slave: the operation returns `0`, it called `fst_add_iface` with `m` on each
slave once, in declared order, it never called `fst_del_iface`, and the group
collection is the previous one followed by one new group with the identifier
as name, the master `m` and the slaves of the configuration. -/
theorem add_group_full_success (env : Collaborators) (st : State)
    (group : fst_group_info) (m : String) (slaves : List fst_iface_info)
    (hnew : ∀ g ∈ st.groups, ¬ StartsWith g.groupname group.id)
    (hcfg : Configured env st group m slaves)
    (hn : 1 ≤ slaves.length)
    (hok : ∀ t, t < slaves.length →
      env.fst_add_iface (add_history st group m slaves t) m (slaves.getD t default) = 0) :
    (fst_rate_upgrade_add_group env st group).1 = 0 ∧
    add_iface_calls (calls_since st (fst_rate_upgrade_add_group env st group).2) =
      slaves.map (fun s => (m, s)) ∧
    del_iface_calls (calls_since st (fst_rate_upgrade_add_group env st group).2) = [] ∧
    (fst_rate_upgrade_add_group env st group).2.groups =
      st.groups ++ [{ groupname := group.id, master := m, slaves := slaves,
                      slave_cnt := (slaves.length : Int) }] := by
  rw [add_group_ok_exact env st group m slaves hnew hcfg hn hok]
  have hcalls := calls_since_append st
    { st with
      g_rateupg_mgr :=
        { st.g_rateupg_mgr with
          groups := st.g_rateupg_mgr.groups ++
            [{ groupname := group.id, master := m, slaves := slaves,
               slave_cnt := (slaves.length : Int) }] },
      calls := add_history st group m slaves slaves.length }
    ([Call.get_master group.id, Call.get_slaves group.id m] ++
      slaves.map (Call.add_iface m)) (by simp [add_history])
  refine ⟨rfl, ?_, ?_, rfl⟩
  · rw [hcalls, add_iface_calls_append, add_iface_calls_map_add]
    simp [add_iface_calls]
  · rw [hcalls, del_iface_calls_append, del_iface_calls_map_add]
    simp [del_iface_calls]

/-- Witness of C5: the group `G1` is added to the registry holding `A` and
`AB`. -/
theorem add_group_full_success_witness :
    (fst_rate_upgrade_add_group (sampleEnv [] [] [] []) sampleTwo ⟨"G1"⟩).1 = 0 ∧
    add_iface_calls (calls_since sampleTwo
      (fst_rate_upgrade_add_group (sampleEnv [] [] [] []) sampleTwo ⟨"G1"⟩).2) =
      sampleSlaves.map (fun s => ("wlan0", s)) ∧
    del_iface_calls (calls_since sampleTwo
      (fst_rate_upgrade_add_group (sampleEnv [] [] [] []) sampleTwo ⟨"G1"⟩).2) = [] ∧
    (fst_rate_upgrade_add_group (sampleEnv [] [] [] []) sampleTwo ⟨"G1"⟩).2.groups =
      sampleTwo.groups ++ [{ groupname := "G1", master := "wlan0", slaves := sampleSlaves,
                             slave_cnt := (sampleSlaves.length : Int) }] :=
  add_group_full_success (sampleEnv [] [] [] []) sampleTwo ⟨"G1"⟩ "wlan0" sampleSlaves
    (by decide) ⟨rfl, rfl⟩ (by decide) (by decide)

/-- C6. `remove_group` on a known group. When the lookup of the group
identifier finds the group `g` at position `pos`, then for every behaviour of
`fst_del_iface`: the operation returns `0`, the collaborator calls it made are
exactly one `fst_del_iface` on each slave of `g` in declared order, and the
group collection is the previous one with the node at `pos` taken out, all
other groups unchanged and in the same order. -/
theorem del_group_known (env : Collaborators) (st : State) (group : fst_group_info)
    (pos : Nat) (g : rate_upgrade_group)
    (hfind : find_rate_upgrade_group st.groups group.id = some (pos, g))
    (hcnt : g.slave_cnt = (g.slaves.length : Int)) :
    (fst_rate_upgrade_del_group env st group).1 = 0 ∧
    calls_since st (fst_rate_upgrade_del_group env st group).2 =
      g.slaves.map Call.del_iface ∧
    ∃ pre post, st.groups = pre ++ g :: post ∧ pre.length = pos ∧
      (fst_rate_upgrade_del_group env st group).2.groups = pre ++ post := by
  obtain ⟨pre, post, hsplit, hlen, _, _⟩ := find_some_split _ _ _ _ hfind
  rw [del_group_exact env st group pos g pre post hfind hcnt hsplit hlen]
  refine ⟨rfl, ?_, pre, post, hsplit, hlen, rfl⟩
  exact calls_since_append st _ _ rfl

/-- Witness of C6: the group `AB` is removed from the registry holding `A`
and `AB`, with `fst_del_iface` failing on `wlan1`. -/
theorem del_group_known_witness :
    (fst_rate_upgrade_del_group (sampleEnv [] ["wlan1"] [] []) sampleTwo ⟨"AB"⟩).1 = 0 ∧
    calls_since sampleTwo
        (fst_rate_upgrade_del_group (sampleEnv [] ["wlan1"] [] []) sampleTwo ⟨"AB"⟩).2 =
      (sampleGroup "AB").slaves.map Call.del_iface ∧
    ∃ pre post, sampleTwo.groups = pre ++ sampleGroup "AB" :: post ∧ pre.length = 1 ∧
      (fst_rate_upgrade_del_group (sampleEnv [] ["wlan1"] [] []) sampleTwo
        ⟨"AB"⟩).2.groups = pre ++ post :=
  del_group_known (sampleEnv [] ["wlan1"] [] []) sampleTwo ⟨"AB"⟩ 1 (sampleGroup "AB")
    (by decide) (by decide)

/-- C7, as stated, fails: the registry holding `A` and `AB` is reachable,
`remove_group` on `A` returns success there, and the lookup of `A` afterwards
finds the group `AB`, whose name starts with `A`. -/
theorem del_group_lookup_counterexample :
    Reachable (sampleEnv [] [] [] []) sampleTwo ∧
    (fst_rate_upgrade_del_group (sampleEnv [] [] [] []) sampleTwo ⟨"A"⟩).1 = 0 ∧
    find_rate_upgrade_group
      (fst_rate_upgrade_del_group (sampleEnv [] [] [] []) sampleTwo ⟨"A"⟩).2.groups "A" =
      some (0, sampleGroup "AB") :=
  ⟨Reachable.add_group _ (Reachable.add_group _ (Reachable.init _ _)),
    by decide, by decide⟩

/-- C7, amended. In every reachable registry state, when `remove_group`
returns success and at most one stored group name starts with the group
identifier, the lookup of the same identifier on the resulting registry finds
no group. -/
theorem del_group_lookup_absent (env : Collaborators) (st : State)
    (group : fst_group_info)
    (_hreach : Reachable env st)
    (hret : (fst_rate_upgrade_del_group env st group).1 = 0)
    (hone : st.groups.countP (fun g => decide (StartsWith g.groupname group.id)) ≤ 1) :
    find_rate_upgrade_group (fst_rate_upgrade_del_group env st group).2.groups group.id
      = none := by
  cases hfind : find_rate_upgrade_group st.groups group.id with
  | none =>
    have hfind' : find_rate_upgrade_group st.g_rateupg_mgr.groups group.id = none := hfind
    unfold fst_rate_upgrade_del_group at hret
    simp [hfind'] at hret
  | some q =>
    obtain ⟨pos, g⟩ := q
    obtain ⟨pre, post, hsplit, hlen, hg, hpre⟩ := find_some_split _ _ _ _ hfind
    have hfind' : find_rate_upgrade_group st.g_rateupg_mgr.groups group.id = some (pos, g) :=
      hfind
    have hsplit' : st.g_rateupg_mgr.groups = pre ++ g :: post := hsplit
    have hgroups : (fst_rate_upgrade_del_group env st group).2.groups = pre ++ post := by
      unfold fst_rate_upgrade_del_group
      simp only [hfind', State.groups, deinit_rate_upgrade_group]
      rw [hsplit', ← hlen, eraseIdx_split]
    rw [hgroups, find_none_iff]
    rw [hsplit, List.countP_append, List.countP_cons_of_pos _ _ (by simpa using hg)] at hone
    have hpost : post.countP (fun g => decide (StartsWith g.groupname group.id)) = 0 := by
      omega
    rw [List.countP_eq_zero] at hpost
    intro g' hg'
    rcases List.mem_append.1 hg' with h | h
    · exact hpre g' h
    · simpa using hpost g' h

/-- Witness of the amended C7: `AB` is removed from the registry holding `A`
and `AB`; only the name `AB` starts with `AB`. -/
theorem del_group_lookup_absent_witness :
    find_rate_upgrade_group
      (fst_rate_upgrade_del_group (sampleEnv [] [] [] []) sampleTwo ⟨"AB"⟩).2.groups "AB"
      = none :=
  del_group_lookup_absent (sampleEnv [] [] [] []) sampleTwo ⟨"AB"⟩
    (Reachable.add_group _ (Reachable.add_group _ (Reachable.init _ _)))
    (by decide) (by decide)

/-! ## Claims on the connection fan-out -/

/-- C8. `on_disconnect` attempts all and reports an aggregate. When the lookup
of the group identifier finds a group `g` whose master starts with the source
interface, then for every behaviour of `fst_dedup_connection`: the
collaborator calls made are exactly one `fst_dedup_connection` on each slave
of `g` in declared order, the result is `-1` if and only if at least one of
these calls failed, and it is `0` if and only if all of them succeeded. -/
theorem on_disconnect_attempt_all (env : Collaborators) (st : State)
    (group : fst_group_info) (iface : String) (addr : List Nat)
    (pos : Nat) (g : rate_upgrade_group)
    (hfind : find_rate_upgrade_group st.groups group.id = some (pos, g))
    (hcnt : g.slave_cnt = (g.slaves.length : Int))
    (hmaster : StartsWith g.master iface) :
    calls_since st (fst_rate_upgrade_on_disconnect env st group iface addr).2 =
      g.slaves.map Call.dedup_connection ∧
    ((fst_rate_upgrade_on_disconnect env st group iface addr).1 = -1 ↔
      ∃ t, t < g.slaves.length ∧
        env.fst_dedup_connection (dedup_history st g t) (g.slaves.getD t default) ≠ 0) ∧
    ((fst_rate_upgrade_on_disconnect env st group iface addr).1 = 0 ↔
      ∀ t, t < g.slaves.length →
        env.fst_dedup_connection (dedup_history st g t) (g.slaves.getD t default) = 0) := by
  rw [on_disconnect_exact env st group iface addr pos g hfind hcnt hmaster]
  obtain ⟨hfail, hall⟩ := on_disconnect_loop_res env g g.slaves.length 0 0 st.calls
  have conv : ∀ t, t < g.slaves.length →
      env.fst_dedup_connection
        (st.calls ++ (List.range' 0 t).map
          (fun x => Call.dedup_connection (g.slaves.getD x default)))
        (g.slaves.getD (0 + t) default) =
      env.fst_dedup_connection (dedup_history st g t) (g.slaves.getD t default) := by
    intro t ht
    rw [range_map_call_eq_take Call.dedup_connection g.slaves t (by omega), Nat.zero_add]
    rfl
  have hfail' : (∃ t, t < g.slaves.length ∧
      env.fst_dedup_connection (dedup_history st g t) (g.slaves.getD t default) ≠ 0) →
      (on_disconnect_loop env g g.slaves.length 0 0 st.calls).1 = -1 := by
    rintro ⟨t, ht, hbad⟩
    exact hfail ⟨t, ht, by rw [conv t ht]; exact hbad⟩
  have hall' : (∀ t, t < g.slaves.length →
      env.fst_dedup_connection (dedup_history st g t) (g.slaves.getD t default) = 0) →
      (on_disconnect_loop env g g.slaves.length 0 0 st.calls).1 = 0 := by
    intro h
    exact hall (fun t ht => by rw [conv t ht]; exact h t ht)
  refine ⟨calls_since_append st _ _ rfl, ⟨?_, hfail'⟩, ⟨?_, hall'⟩⟩
  · intro hres
    by_contra hno
    have h0 := hall' (fun t ht => by
      by_contra hne
      exact hno ⟨t, ht, hne⟩)
    simp only [] at hres
    omega
  · intro hres t ht
    by_contra hne
    have h1 := hfail' ⟨t, ht, hne⟩
    simp only [] at hres
    omega

/-- Witness of C8: a disconnect on `wlan0` for the group `AB`, with the undo
failing on `wlan2` only; all three slaves are attempted and the result is
`-1`. -/
theorem on_disconnect_attempt_all_witness :
    calls_since sampleTwo (fst_rate_upgrade_on_disconnect (sampleEnv [] [] [] ["wlan2"])
        sampleTwo ⟨"AB"⟩ "wlan0" [2, 0, 0, 0, 0, 1]).2 =
      (sampleGroup "AB").slaves.map Call.dedup_connection ∧
    ((fst_rate_upgrade_on_disconnect (sampleEnv [] [] [] ["wlan2"]) sampleTwo ⟨"AB"⟩
        "wlan0" [2, 0, 0, 0, 0, 1]).1 = -1 ↔
      ∃ t, t < (sampleGroup "AB").slaves.length ∧
        (sampleEnv [] [] [] ["wlan2"]).fst_dedup_connection
          (dedup_history sampleTwo (sampleGroup "AB") t)
          ((sampleGroup "AB").slaves.getD t default) ≠ 0) ∧
    ((fst_rate_upgrade_on_disconnect (sampleEnv [] [] [] ["wlan2"]) sampleTwo ⟨"AB"⟩
        "wlan0" [2, 0, 0, 0, 0, 1]).1 = 0 ↔
      ∀ t, t < (sampleGroup "AB").slaves.length →
        (sampleEnv [] [] [] ["wlan2"]).fst_dedup_connection
          (dedup_history sampleTwo (sampleGroup "AB") t)
          ((sampleGroup "AB").slaves.getD t default) = 0) :=
  on_disconnect_attempt_all (sampleEnv [] [] [] ["wlan2"]) sampleTwo ⟨"AB"⟩ "wlan0"
    [2, 0, 0, 0, 0, 1] 1 (sampleGroup "AB") (by decide) (by decide) (by decide)

/-- C9. Happy path of `on_connect`. When the lookup of the group identifier
finds a group `g` whose master starts with the source interface, and
`fst_dup_connection` succeeds on every slave: the operation returns `0`, it
called `fst_dup_connection` once on each slave in declared order, with the
master of the group and the peer address, and it never called
`fst_dedup_connection`. -/
theorem on_connect_happy_path (env : Collaborators) (st : State)
    (group : fst_group_info) (iface : String) (addr : List Nat)
    (pos : Nat) (g : rate_upgrade_group)
    (hfind : find_rate_upgrade_group st.groups group.id = some (pos, g))
    (hcnt : g.slave_cnt = (g.slaves.length : Int))
    (hmaster : StartsWith g.master iface)
    (hok : ∀ t, t < g.slaves.length → env.fst_dup_connection (dup_history st g addr t)
      (g.slaves.getD t default) g.master addr = 0) :
    (fst_rate_upgrade_on_connect env st group iface addr).1 = 0 ∧
    dup_connection_calls
        (calls_since st (fst_rate_upgrade_on_connect env st group iface addr).2) =
      g.slaves.map (fun s => (s, g.master, addr)) ∧
    dedup_connection_calls
        (calls_since st (fst_rate_upgrade_on_connect env st group iface addr).2) = [] := by
  rw [on_connect_ok_exact env st group iface addr pos g hfind hcnt hmaster hok]
  have hcalls := calls_since_append st
    { st with calls := st.calls ++
        g.slaves.map (fun s => Call.dup_connection s g.master addr) }
    (g.slaves.map (fun s => Call.dup_connection s g.master addr)) rfl
  refine ⟨rfl, ?_, ?_⟩
  · rw [hcalls, dup_connection_calls_map_dup]
  · rw [hcalls, dedup_connection_calls_map_dup]

/-- Witness of C9: a connect on `wlan0` for the group `AB` with every
duplication succeeding. -/
theorem on_connect_happy_path_witness :
    (fst_rate_upgrade_on_connect (sampleEnv [] [] [] []) sampleTwo ⟨"AB"⟩
      "wlan0" [2, 0, 0, 0, 0, 1]).1 = 0 ∧
    dup_connection_calls (calls_since sampleTwo
      (fst_rate_upgrade_on_connect (sampleEnv [] [] [] []) sampleTwo ⟨"AB"⟩
        "wlan0" [2, 0, 0, 0, 0, 1]).2) =
      (sampleGroup "AB").slaves.map
        (fun s => (s, (sampleGroup "AB").master, [2, 0, 0, 0, 0, 1])) ∧
    dedup_connection_calls (calls_since sampleTwo
      (fst_rate_upgrade_on_connect (sampleEnv [] [] [] []) sampleTwo ⟨"AB"⟩
        "wlan0" [2, 0, 0, 0, 0, 1]).2) = [] :=
  on_connect_happy_path (sampleEnv [] [] [] []) sampleTwo ⟨"AB"⟩ "wlan0"
    [2, 0, 0, 0, 0, 1] 1 (sampleGroup "AB") (by decide) (by decide) (by decide) (by decide)

/-- C10. `on_connect` ignores irrelevant events. When the lookup of the group
identifier finds no group, or finds a group whose master does not start with
the source interface, the operation returns `0` and the history of
collaborator calls is the one before the call: no `fst_dup_connection`, no
`fst_dedup_connection`, no call at all. -/
theorem on_connect_irrelevant (env : Collaborators) (st : State)
    (group : fst_group_info) (iface : String) (addr : List Nat)
    (h : find_rate_upgrade_group st.groups group.id = none ∨
      ∃ pos g, find_rate_upgrade_group st.groups group.id = some (pos, g) ∧
        ¬ StartsWith g.master iface) :
    (fst_rate_upgrade_on_connect env st group iface addr).1 = 0 ∧
    (fst_rate_upgrade_on_connect env st group iface addr).2.calls = st.calls ∧
    calls_since st (fst_rate_upgrade_on_connect env st group iface addr).2 = [] := by
  rw [on_connect_skip env st group iface addr h]
  exact ⟨rfl, rfl, by simp [calls_since]⟩

/-- Witness of C10: a connect on `eth0` for the group `AB`, whose master is
`wlan0`, with a connection duplicator that would fail on every slave. -/
theorem on_connect_irrelevant_witness :
    (fst_rate_upgrade_on_connect (sampleEnv [] [] ["wlan1", "wlan2", "wlan3"] []) sampleTwo
      ⟨"AB"⟩ "eth0" [2, 0, 0, 0, 0, 1]).1 = 0 ∧
    (fst_rate_upgrade_on_connect (sampleEnv [] [] ["wlan1", "wlan2", "wlan3"] []) sampleTwo
      ⟨"AB"⟩ "eth0" [2, 0, 0, 0, 0, 1]).2.calls = sampleTwo.calls ∧
    calls_since sampleTwo
      (fst_rate_upgrade_on_connect (sampleEnv [] [] ["wlan1", "wlan2", "wlan3"] []) sampleTwo
        ⟨"AB"⟩ "eth0" [2, 0, 0, 0, 0, 1]).2 = [] :=
  on_connect_irrelevant (sampleEnv [] [] ["wlan1", "wlan2", "wlan3"] []) sampleTwo ⟨"AB"⟩
    "eth0" [2, 0, 0, 0, 0, 1]
    (Or.inr ⟨1, sampleGroup "AB", by decide, by decide⟩)

/-! ## Claims on the other exits of `fst_rate_upgrade_add_group` -/

theorem add_group_bad_slaves_exact (env : Collaborators) (st : State)
    (group : fst_group_info) (m : String)
    (hnew : ∀ g ∈ st.groups, ¬ StartsWith g.groupname group.id)
    (hm : env.fst_ini_config_get_rate_upgrade_master st.calls st.g_rateupg_mgr.iniconf
      group.id = some m)
    (hcnt : (env.fst_ini_config_get_group_slave_ifaces
      (st.calls ++ [Call.get_master group.id]) st.g_rateupg_mgr.iniconf group m).1 ≤ 0) :
    fst_rate_upgrade_add_group env st group =
      (-1, { st with calls := st.calls ++
              [Call.get_master group.id, Call.get_slaves group.id m] }) := by
  have hfind : find_rate_upgrade_group st.g_rateupg_mgr.groups group.id = none :=
    (find_none_iff _ _).2 hnew
  unfold fst_rate_upgrade_add_group
  simp only [hfind, hm, strdup]
  by_cases hneg : (env.fst_ini_config_get_group_slave_ifaces
      (st.calls ++ [Call.get_master group.id]) st.g_rateupg_mgr.iniconf group m).1 < 0
  · simp [hneg]
  · have hzero : (env.fst_ini_config_get_group_slave_ifaces
        (st.calls ++ [Call.get_master group.id]) st.g_rateupg_mgr.iniconf group m).1 = 0 := by
      omega
    simp [hzero]

/-- C11. `add_group` with a bad slave configuration. In a registry where no
stored group name starts with the group identifier, with a configuration
source that gives a master and reports a slave count that is zero or
negative: the operation returns `-1`, it calls neither `fst_add_iface` nor
`fst_del_iface`, and the group collection is unchanged. -/
theorem add_group_bad_slave_count (env : Collaborators) (st : State)
    (group : fst_group_info) (m : String)
    (hnew : ∀ g ∈ st.groups, ¬ StartsWith g.groupname group.id)
    (hm : env.fst_ini_config_get_rate_upgrade_master st.calls st.g_rateupg_mgr.iniconf
      group.id = some m)
    (hcnt : (env.fst_ini_config_get_group_slave_ifaces
      (st.calls ++ [Call.get_master group.id]) st.g_rateupg_mgr.iniconf group m).1 ≤ 0) :
    (fst_rate_upgrade_add_group env st group).1 = -1 ∧
    add_iface_calls (calls_since st (fst_rate_upgrade_add_group env st group).2) = [] ∧
    del_iface_calls (calls_since st (fst_rate_upgrade_add_group env st group).2) = [] ∧
    (fst_rate_upgrade_add_group env st group).2.groups = st.groups := by
  rw [add_group_bad_slaves_exact env st group m hnew hm hcnt]
  have hcalls := calls_since_append st
    { st with calls := st.calls ++ [Call.get_master group.id, Call.get_slaves group.id m] }
    [Call.get_master group.id, Call.get_slaves group.id m] rfl
  refine ⟨rfl, ?_, ?_, rfl⟩
  · rw [hcalls]; rfl
  · rw [hcalls]; rfl

/-- Witness of C11: in the registry holding `A` and `AB`, the group `G1` has
the master `wlan0` and a slave count of zero. -/
theorem add_group_bad_slave_count_witness :
    (fst_rate_upgrade_add_group (sampleCfgEnv (some "wlan0") 0 []) sampleTwo ⟨"G1"⟩).1
      = -1 ∧
    add_iface_calls (calls_since sampleTwo
      (fst_rate_upgrade_add_group (sampleCfgEnv (some "wlan0") 0 []) sampleTwo
        ⟨"G1"⟩).2) = [] ∧
    del_iface_calls (calls_since sampleTwo
      (fst_rate_upgrade_add_group (sampleCfgEnv (some "wlan0") 0 []) sampleTwo
        ⟨"G1"⟩).2) = [] ∧
    (fst_rate_upgrade_add_group (sampleCfgEnv (some "wlan0") 0 []) sampleTwo
      ⟨"G1"⟩).2.groups = sampleTwo.groups :=
  add_group_bad_slave_count (sampleCfgEnv (some "wlan0") 0 []) sampleTwo ⟨"G1"⟩ "wlan0"
    (by decide) rfl (by decide)

/-- C12. `add_group` without a configured master. In every registry state,
when the configuration source reports no master for the group identifier,
the operation returns `0`, it calls neither `fst_add_iface` nor
`fst_del_iface`, and the group collection, hence the group count, is
unchanged. -/
theorem add_group_no_master (env : Collaborators) (st : State) (group : fst_group_info)
    (hm : env.fst_ini_config_get_rate_upgrade_master st.calls st.g_rateupg_mgr.iniconf
      group.id = none) :
    (fst_rate_upgrade_add_group env st group).1 = 0 ∧
    add_iface_calls (calls_since st (fst_rate_upgrade_add_group env st group).2) = [] ∧
    del_iface_calls (calls_since st (fst_rate_upgrade_add_group env st group).2) = [] ∧
    (fst_rate_upgrade_add_group env st group).2.groups = st.groups ∧
    (fst_rate_upgrade_add_group env st group).2.groups.length = st.groups.length := by
  cases hfind : find_rate_upgrade_group st.g_rateupg_mgr.groups group.id with
  | some q =>
    have hres : fst_rate_upgrade_add_group env st group = (0, st) := by
      unfold fst_rate_upgrade_add_group
      simp only [hfind]
    rw [hres]
    have hcalls := calls_since_append st st [] (by simp)
    refine ⟨rfl, ?_, ?_, rfl, rfl⟩
    · rw [hcalls]; rfl
    · rw [hcalls]; rfl
  | none =>
    have hres : fst_rate_upgrade_add_group env st group =
        (0, { st with calls := st.calls ++ [Call.get_master group.id] }) := by
      unfold fst_rate_upgrade_add_group
      simp only [hfind, hm]
    rw [hres]
    have hcalls := calls_since_append st
      { st with calls := st.calls ++ [Call.get_master group.id] }
      [Call.get_master group.id] rfl
    refine ⟨rfl, ?_, ?_, rfl, rfl⟩
    · rw [hcalls]; rfl
    · rw [hcalls]; rfl

/-- Witness of C12: in the registry holding `A` and `AB`, the group `G1` has
no configured master. -/
theorem add_group_no_master_witness :
    (fst_rate_upgrade_add_group (sampleCfgEnv none 3 sampleSlaves) sampleTwo ⟨"G1"⟩).1
      = 0 ∧
    add_iface_calls (calls_since sampleTwo
      (fst_rate_upgrade_add_group (sampleCfgEnv none 3 sampleSlaves) sampleTwo
        ⟨"G1"⟩).2) = [] ∧
    del_iface_calls (calls_since sampleTwo
      (fst_rate_upgrade_add_group (sampleCfgEnv none 3 sampleSlaves) sampleTwo
        ⟨"G1"⟩).2) = [] ∧
    (fst_rate_upgrade_add_group (sampleCfgEnv none 3 sampleSlaves) sampleTwo
      ⟨"G1"⟩).2.groups = sampleTwo.groups ∧
    (fst_rate_upgrade_add_group (sampleCfgEnv none 3 sampleSlaves) sampleTwo
      ⟨"G1"⟩).2.groups.length = sampleTwo.groups.length :=
  add_group_no_master (sampleCfgEnv none 3 sampleSlaves) sampleTwo ⟨"G1"⟩ rfl

theorem add_group_known_exact (env : Collaborators) (st : State) (group : fst_group_info)
    (h : ∃ g ∈ st.groups, StartsWith g.groupname group.id) :
    fst_rate_upgrade_add_group env st group = (0, st) := by
  cases hfind : find_rate_upgrade_group st.g_rateupg_mgr.groups group.id with
  | none =>
    obtain ⟨g, hg, hs⟩ := h
    exact absurd hs ((find_none_iff _ _).1 hfind g hg)
  | some q =>
    unfold fst_rate_upgrade_add_group
    simp only [hfind]

/-- C13. `add_group` on an already known group is a no-op. When some stored
group name starts with the group identifier, the operation returns `0`, the
history of collaborator calls is the one before the call (neither the
configuration source nor the interface manager is consulted), and the group
collection is unchanged. -/
theorem add_group_known_noop (env : Collaborators) (st : State) (group : fst_group_info)
    (h : ∃ g ∈ st.groups, StartsWith g.groupname group.id) :
    (fst_rate_upgrade_add_group env st group).1 = 0 ∧
    (fst_rate_upgrade_add_group env st group).2.calls = st.calls ∧
    calls_since st (fst_rate_upgrade_add_group env st group).2 = [] ∧
    (fst_rate_upgrade_add_group env st group).2.groups = st.groups := by
  rw [add_group_known_exact env st group h]
  exact ⟨rfl, rfl, by simp [calls_since], rfl⟩

/-- Witness of C13: in the registry holding `A` and `AB`, the identifier `A`
is a prefix of both stored names; the collaborators would fail on every
bind. -/
theorem add_group_known_noop_witness :
    (fst_rate_upgrade_add_group (sampleEnv ["wlan1", "wlan2", "wlan3"] [] [] []) sampleTwo
      ⟨"A"⟩).1 = 0 ∧
    (fst_rate_upgrade_add_group (sampleEnv ["wlan1", "wlan2", "wlan3"] [] [] []) sampleTwo
      ⟨"A"⟩).2.calls = sampleTwo.calls ∧
    calls_since sampleTwo
      (fst_rate_upgrade_add_group (sampleEnv ["wlan1", "wlan2", "wlan3"] [] [] []) sampleTwo
        ⟨"A"⟩).2 = [] ∧
    (fst_rate_upgrade_add_group (sampleEnv ["wlan1", "wlan2", "wlan3"] [] [] []) sampleTwo
      ⟨"A"⟩).2.groups = sampleTwo.groups :=
  add_group_known_noop (sampleEnv ["wlan1", "wlan2", "wlan3"] [] [] []) sampleTwo ⟨"A"⟩
    ⟨sampleGroup "AB", by decide, by decide⟩

/-! ## Claims on `fst_rate_upgrade_del_group`, the frame of the fan-out and shutdown -/

theorem del_group_unknown_exact (env : Collaborators) (st : State) (group : fst_group_info)
    (hnew : ∀ g ∈ st.groups, ¬ StartsWith g.groupname group.id) :
    fst_rate_upgrade_del_group env st group = (-1, st) := by
  have hfind : find_rate_upgrade_group st.g_rateupg_mgr.groups group.id = none :=
    (find_none_iff _ _).2 hnew
  unfold fst_rate_upgrade_del_group
  simp only [hfind]

/-- C15. `remove_group` on an unknown group. When no stored group name starts
with the group identifier, the operation returns `-1`, the history of
collaborator calls is the one before the call (no `fst_del_iface`), and the
group collection is unchanged. -/
theorem del_group_unknown (env : Collaborators) (st : State) (group : fst_group_info)
    (hnew : ∀ g ∈ st.groups, ¬ StartsWith g.groupname group.id) :
    (fst_rate_upgrade_del_group env st group).1 = -1 ∧
    (fst_rate_upgrade_del_group env st group).2.calls = st.calls ∧
    del_iface_calls (calls_since st (fst_rate_upgrade_del_group env st group).2) = [] ∧
    (fst_rate_upgrade_del_group env st group).2.groups = st.groups := by
  rw [del_group_unknown_exact env st group hnew]
  refine ⟨rfl, rfl, ?_, rfl⟩
  rw [calls_since_append st st [] (by simp)]
  rfl

/-- Witness of C15: the registry holding `A` and `AB` has no group whose name
starts with `B`. -/
theorem del_group_unknown_witness :
    (fst_rate_upgrade_del_group (sampleEnv [] [] [] []) sampleTwo ⟨"B"⟩).1 = -1 ∧
    (fst_rate_upgrade_del_group (sampleEnv [] [] [] []) sampleTwo ⟨"B"⟩).2.calls =
      sampleTwo.calls ∧
    del_iface_calls (calls_since sampleTwo
      (fst_rate_upgrade_del_group (sampleEnv [] [] [] []) sampleTwo ⟨"B"⟩).2) = [] ∧
    (fst_rate_upgrade_del_group (sampleEnv [] [] [] []) sampleTwo ⟨"B"⟩).2.groups =
      sampleTwo.groups :=
  del_group_unknown (sampleEnv [] [] [] []) sampleTwo ⟨"B"⟩ (by decide)

theorem on_connect_mgr (env : Collaborators) (st : State) (group : fst_group_info)
    (iface : String) (addr : List Nat) :
    (fst_rate_upgrade_on_connect env st group iface addr).2.g_rateupg_mgr =
      st.g_rateupg_mgr := by
  unfold fst_rate_upgrade_on_connect
  split
  · split
    · split <;> rfl
    · rfl
  · rfl

theorem on_disconnect_mgr (env : Collaborators) (st : State) (group : fst_group_info)
    (iface : String) (addr : List Nat) :
    (fst_rate_upgrade_on_disconnect env st group iface addr).2.g_rateupg_mgr =
      st.g_rateupg_mgr := by
  unfold fst_rate_upgrade_on_disconnect
  split
  · split <;> rfl
  · rfl

/-- C16. Connect and disconnect never alter group membership. For every
registry state, group identifier, source interface, peer address and
behaviour of the connection duplicator, the group collection after
`on_connect` and after `on_disconnect` is the one before the call: the same
records in the same order. -/
theorem connect_disconnect_keep_groups (env : Collaborators) (st : State)
    (group : fst_group_info) (iface : String) (addr : List Nat) :
    (fst_rate_upgrade_on_connect env st group iface addr).2.groups = st.groups ∧
    (fst_rate_upgrade_on_disconnect env st group iface addr).2.groups = st.groups := by
  constructor
  · unfold State.groups
    rw [on_connect_mgr]
  · unfold State.groups
    rw [on_disconnect_mgr]

theorem deinit_all_eq_nil (l : List rate_upgrade_group) : deinit_all l = [] := by
  induction l with
  | nil => simp [deinit_all]
  | cons g rest ih =>
    rw [deinit_all]
    simpa [deinit_rate_upgrade_group] using ih

/-- C17. Shutdown. The function is total, so it terminates on every
registry. On an active registry it leaves no group and marks the registry
inactive; on an inactive registry it changes nothing; and a second shutdown
after a first one changes nothing. -/
theorem deinit_empties_and_deactivates (st : State) :
    (st.g_rateupg_mgr_initialized ≠ 0 →
      (fst_rate_upgrade_deinit st).groups = [] ∧
      (fst_rate_upgrade_deinit st).groups.length = 0 ∧
      (fst_rate_upgrade_deinit st).g_rateupg_mgr_initialized = 0) ∧
    (st.g_rateupg_mgr_initialized = 0 → fst_rate_upgrade_deinit st = st) ∧
    fst_rate_upgrade_deinit (fst_rate_upgrade_deinit st) = fst_rate_upgrade_deinit st := by
  have hoff : ∀ s : State, s.g_rateupg_mgr_initialized = 0 →
      fst_rate_upgrade_deinit s = s := by
    intro s hs
    unfold fst_rate_upgrade_deinit
    simp [hs]
  have hon : ∀ s : State, s.g_rateupg_mgr_initialized ≠ 0 →
      fst_rate_upgrade_deinit s =
        { s with
          g_rateupg_mgr := { s.g_rateupg_mgr with groups := [] },
          g_rateupg_mgr_initialized := 0 } := by
    intro s hs
    unfold fst_rate_upgrade_deinit
    simp [hs, deinit_all_eq_nil]
  refine ⟨?_, hoff st, ?_⟩
  · intro hs
    rw [hon st hs]
    exact ⟨rfl, rfl, rfl⟩
  · by_cases hs : st.g_rateupg_mgr_initialized = 0
    · rw [hoff st hs, hoff st hs]
    · rw [hon st hs]
      exact hoff _ rfl

/-- Witness of C17: the active registry holding `A` and `AB` is emptied and
deactivated. -/
theorem deinit_empties_and_deactivates_witness :
    (fst_rate_upgrade_deinit sampleTwo).groups = [] ∧
    (fst_rate_upgrade_deinit sampleTwo).groups.length = 0 ∧
    (fst_rate_upgrade_deinit sampleTwo).g_rateupg_mgr_initialized = 0 :=
  (deinit_empties_and_deactivates sampleTwo).1 (by decide)

/-- C20. Add then remove is a round trip. In a registry where no stored group
name starts with the group identifier, with a configuration that gives a
master and at least one slave, and `fst_add_iface` succeeding on every slave:
`add_group` returns `0`, the following `remove_group` returns `0`, and the
group collection is again the one before the two calls, whatever
`fst_del_iface` returns. -/
theorem add_then_del_round_trip (env : Collaborators) (st : State)
    (group : fst_group_info) (m : String) (slaves : List fst_iface_info)
    (hnew : ∀ g ∈ st.groups, ¬ StartsWith g.groupname group.id)
    (hcfg : Configured env st group m slaves)
    (hn : 1 ≤ slaves.length)
    (hok : ∀ t, t < slaves.length →
      env.fst_add_iface (add_history st group m slaves t) m (slaves.getD t default) = 0) :
    (fst_rate_upgrade_add_group env st group).1 = 0 ∧
    (fst_rate_upgrade_del_group env (fst_rate_upgrade_add_group env st group).2 group).1
      = 0 ∧
    (fst_rate_upgrade_del_group env (fst_rate_upgrade_add_group env st group).2
      group).2.groups = st.groups := by
  rw [add_group_ok_exact env st group m slaves hnew hcfg hn hok]
  have hself : StartsWith group.id group.id := List.prefix_refl _
  have hdel := del_group_exact env
    { st with
      g_rateupg_mgr :=
        { st.g_rateupg_mgr with
          groups := st.g_rateupg_mgr.groups ++
            [{ groupname := group.id, master := m, slaves := slaves,
               slave_cnt := (slaves.length : Int) }] },
      calls := add_history st group m slaves slaves.length }
    group st.g_rateupg_mgr.groups.length
    { groupname := group.id, master := m, slaves := slaves,
      slave_cnt := (slaves.length : Int) }
    st.g_rateupg_mgr.groups []
    (find_split st.g_rateupg_mgr.groups [] _ group.id hself hnew) rfl rfl rfl
  refine ⟨rfl, ?_, ?_⟩
  · rw [hdel]
  · rw [hdel]
    simp [State.groups]

/-- Witness of C20: the group `G1` is added to the registry holding `A` and
`AB` and removed again, with `fst_del_iface` failing on `wlan2`. -/
theorem add_then_del_round_trip_witness :
    (fst_rate_upgrade_add_group (sampleEnv [] ["wlan2"] [] []) sampleTwo ⟨"G1"⟩).1 = 0 ∧
    (fst_rate_upgrade_del_group (sampleEnv [] ["wlan2"] [] [])
      (fst_rate_upgrade_add_group (sampleEnv [] ["wlan2"] [] []) sampleTwo ⟨"G1"⟩).2
      ⟨"G1"⟩).1 = 0 ∧
    (fst_rate_upgrade_del_group (sampleEnv [] ["wlan2"] [] [])
      (fst_rate_upgrade_add_group (sampleEnv [] ["wlan2"] [] []) sampleTwo ⟨"G1"⟩).2
      ⟨"G1"⟩).2.groups = sampleTwo.groups :=
  add_then_del_round_trip (sampleEnv [] ["wlan2"] [] []) sampleTwo ⟨"G1"⟩ "wlan0"
    sampleSlaves (by decide) ⟨rfl, rfl⟩ (by decide) (by decide)

/-! ## The outcome of the operations without assumptions on the collaborators -/

theorem add_group_loop_none (env : Collaborators) (m : String)
    (ifaces : List fst_iface_info) :
    ∀ (n i : Nat) (calls c3 : List Call),
      add_group_loop env m ifaces n i calls = (none, c3) →
      c3 = calls ++
        (List.range' i n).map (fun x => Call.add_iface m (ifaces.getD x default)) ∧
      ∀ t, t < n → env.fst_add_iface
        (calls ++ (List.range' i t).map (fun x => Call.add_iface m (ifaces.getD x default)))
        m (ifaces.getD (i + t) default) = 0 := by
  intro n
  induction n with
  | zero =>
    intro i calls c3 h
    simp only [add_group_loop, Prod.mk.injEq, true_and] at h
    refine ⟨by simp [h], ?_⟩
    intro t ht
    omega
  | succ n ih =>
    intro i calls c3 h
    by_cases h0 : env.fst_add_iface calls m (ifaces.getD i default) = 0
    · rw [add_group_loop] at h
      simp only [h0, ne_eq, not_true_eq_false, if_false] at h
      obtain ⟨hc, hall⟩ := ih (i + 1) _ c3 h
      refine ⟨by rw [hc]; simp [List.range'_succ], ?_⟩
      intro t ht
      cases t with
      | zero => simpa using h0
      | succ t =>
        have ht1 := hall t (by omega)
        simp only [List.range'_succ, List.map_cons]
        simpa [Nat.add_assoc, Nat.add_comm 1 t] using ht1
    · rw [add_group_loop, if_pos h0] at h
      simp at h

theorem add_group_loop_extends (env : Collaborators) (m : String)
    (ifaces : List fst_iface_info) :
    ∀ (n i : Nat) (calls : List Call),
      calls <+: (add_group_loop env m ifaces n i calls).2 := by
  intro n
  induction n with
  | zero => intro i calls; simp [add_group_loop]
  | succ n ih =>
    intro i calls
    rw [add_group_loop]
    split
    · exact List.prefix_append _ _
    · exact (List.prefix_append _ _).trans (ih _ _)

theorem on_connect_loop_extends (env : Collaborators) (g : rate_upgrade_group)
    (addr : List Nat) :
    ∀ (n i : Nat) (calls : List Call),
      calls <+: (on_connect_loop env g addr n i calls).2 := by
  intro n
  induction n with
  | zero => intro i calls; simp [on_connect_loop]
  | succ n ih =>
    intro i calls
    rw [on_connect_loop]
    split
    · exact List.prefix_append _ _
    · exact (List.prefix_append _ _).trans (ih _ _)

theorem add_group_shape (env : Collaborators) (st : State) (group : fst_group_info) :
    (∃ q, find_rate_upgrade_group st.g_rateupg_mgr.groups group.id = some q ∧
      fst_rate_upgrade_add_group env st group = (0, st)) ∨
    (find_rate_upgrade_group st.g_rateupg_mgr.groups group.id = none ∧
      env.fst_ini_config_get_rate_upgrade_master st.calls st.g_rateupg_mgr.iniconf
        group.id = none ∧
      fst_rate_upgrade_add_group env st group =
        (0, { st with calls := st.calls ++ [Call.get_master group.id] })) ∨
    (∃ m, find_rate_upgrade_group st.g_rateupg_mgr.groups group.id = none ∧
      env.fst_ini_config_get_rate_upgrade_master st.calls st.g_rateupg_mgr.iniconf
        group.id = some m ∧
      (env.fst_ini_config_get_group_slave_ifaces (st.calls ++ [Call.get_master group.id])
        st.g_rateupg_mgr.iniconf group m).1 ≤ 0 ∧
      fst_rate_upgrade_add_group env st group =
        (-1, { st with calls := st.calls ++
                [Call.get_master group.id, Call.get_slaves group.id m] })) ∨
    (∃ m i c3, find_rate_upgrade_group st.g_rateupg_mgr.groups group.id = none ∧
      env.fst_ini_config_get_rate_upgrade_master st.calls st.g_rateupg_mgr.iniconf
        group.id = some m ∧
      0 < (env.fst_ini_config_get_group_slave_ifaces (st.calls ++ [Call.get_master group.id])
        st.g_rateupg_mgr.iniconf group m).1 ∧
      add_group_loop env m
        (env.fst_ini_config_get_group_slave_ifaces (st.calls ++ [Call.get_master group.id])
          st.g_rateupg_mgr.iniconf group m).2
        (env.fst_ini_config_get_group_slave_ifaces (st.calls ++ [Call.get_master group.id])
          st.g_rateupg_mgr.iniconf group m).1.toNat 0
        (st.calls ++ [Call.get_master group.id] ++ [Call.get_slaves group.id m])
        = (some i, c3) ∧
      fst_rate_upgrade_add_group env st group =
        (-1, { st with
               calls :=
                 add_group_error_add env
                   (env.fst_ini_config_get_group_slave_ifaces
                     (st.calls ++ [Call.get_master group.id])
                     st.g_rateupg_mgr.iniconf group m).2 i c3 })) ∨
    (∃ m c3, find_rate_upgrade_group st.g_rateupg_mgr.groups group.id = none ∧
      env.fst_ini_config_get_rate_upgrade_master st.calls st.g_rateupg_mgr.iniconf
        group.id = some m ∧
      0 < (env.fst_ini_config_get_group_slave_ifaces (st.calls ++ [Call.get_master group.id])
        st.g_rateupg_mgr.iniconf group m).1 ∧
      add_group_loop env m
        (env.fst_ini_config_get_group_slave_ifaces (st.calls ++ [Call.get_master group.id])
          st.g_rateupg_mgr.iniconf group m).2
        (env.fst_ini_config_get_group_slave_ifaces (st.calls ++ [Call.get_master group.id])
          st.g_rateupg_mgr.iniconf group m).1.toNat 0
        (st.calls ++ [Call.get_master group.id] ++ [Call.get_slaves group.id m])
        = (none, c3) ∧
      fst_rate_upgrade_add_group env st group =
        (0, { st with
              g_rateupg_mgr :=
                { st.g_rateupg_mgr with
                  groups := st.g_rateupg_mgr.groups ++
                    [{ groupname := group.id, master := m,
                       slaves :=
                         (env.fst_ini_config_get_group_slave_ifaces
                           (st.calls ++ [Call.get_master group.id])
                           st.g_rateupg_mgr.iniconf group m).2,
                       slave_cnt :=
                         (env.fst_ini_config_get_group_slave_ifaces
                           (st.calls ++ [Call.get_master group.id])
                           st.g_rateupg_mgr.iniconf group m).1 }] },
              calls := c3 })) := by
  cases hfind : find_rate_upgrade_group st.g_rateupg_mgr.groups group.id with
  | some q =>
    refine Or.inl ⟨q, rfl, ?_⟩
    unfold fst_rate_upgrade_add_group
    simp only [hfind]
  | none =>
    cases hm : env.fst_ini_config_get_rate_upgrade_master st.calls
        st.g_rateupg_mgr.iniconf group.id with
    | none =>
      refine Or.inr (Or.inl ⟨rfl, rfl, ?_⟩)
      unfold fst_rate_upgrade_add_group
      simp only [hfind, hm]
    | some m =>
      by_cases hle : (env.fst_ini_config_get_group_slave_ifaces
          (st.calls ++ [Call.get_master group.id]) st.g_rateupg_mgr.iniconf group m).1 ≤ 0
      · refine Or.inr (Or.inr (Or.inl ⟨m, rfl, rfl, hle, ?_⟩))
        exact add_group_bad_slaves_exact env st group m ((find_none_iff _ _).1 hfind) hm hle
      · have hneg : ¬ (env.fst_ini_config_get_group_slave_ifaces
            (st.calls ++ [Call.get_master group.id]) st.g_rateupg_mgr.iniconf group m).1 < 0 := by
          omega
        have hzero : ¬ (env.fst_ini_config_get_group_slave_ifaces
            (st.calls ++ [Call.get_master group.id]) st.g_rateupg_mgr.iniconf group m).1 = 0 := by
          omega
        cases hloop : add_group_loop env m
          (env.fst_ini_config_get_group_slave_ifaces (st.calls ++ [Call.get_master group.id])
            st.g_rateupg_mgr.iniconf group m).2
          (env.fst_ini_config_get_group_slave_ifaces (st.calls ++ [Call.get_master group.id])
            st.g_rateupg_mgr.iniconf group m).1.toNat 0
          (st.calls ++ [Call.get_master group.id] ++ [Call.get_slaves group.id m]) with
        | mk o c3 =>
          cases o with
          | some i =>
            refine Or.inr (Or.inr (Or.inr (Or.inl ⟨m, i, c3, rfl, rfl, by omega, hloop, ?_⟩)))
            unfold fst_rate_upgrade_add_group
            simp only [hfind, hm, strdup, hneg, hzero, if_false, hloop]
          | none =>
            refine Or.inr (Or.inr (Or.inr (Or.inr ⟨m, c3, rfl, rfl, by omega, hloop, ?_⟩)))
            unfold fst_rate_upgrade_add_group
            simp only [hfind, hm, strdup, hneg, hzero, if_false, hloop]

theorem add_group_frame (env : Collaborators) (st : State) (group : fst_group_info) :
    (fst_rate_upgrade_add_group env st group).2.g_rateupg_mgr.iniconf =
      st.g_rateupg_mgr.iniconf ∧
    st.calls <+: (fst_rate_upgrade_add_group env st group).2.calls := by
  rcases add_group_shape env st group with
    ⟨q, _, h⟩ | ⟨_, _, h⟩ | ⟨m, _, _, _, h⟩ | ⟨m, i, c3, _, _, _, hloop, h⟩ |
    ⟨m, c3, _, _, _, hloop, h⟩
  · rw [h]; exact ⟨rfl, List.prefix_refl _⟩
  · rw [h]; exact ⟨rfl, List.prefix_append _ _⟩
  · rw [h]; exact ⟨rfl, List.prefix_append _ _⟩
  · rw [h]
    refine ⟨rfl, ?_⟩
    have h1 := add_group_loop_extends env m
      (env.fst_ini_config_get_group_slave_ifaces (st.calls ++ [Call.get_master group.id])
        st.g_rateupg_mgr.iniconf group m).2
      (env.fst_ini_config_get_group_slave_ifaces (st.calls ++ [Call.get_master group.id])
        st.g_rateupg_mgr.iniconf group m).1.toNat 0
      (st.calls ++ [Call.get_master group.id] ++ [Call.get_slaves group.id m])
    rw [hloop] at h1
    show st.calls <+: add_group_error_add env _ i c3
    rw [add_group_error_add_calls]
    exact ((List.prefix_append _ _).trans
      ((List.prefix_append _ _).trans h1)).trans (List.prefix_append _ _)
  · rw [h]
    refine ⟨rfl, ?_⟩
    have h1 := add_group_loop_extends env m
      (env.fst_ini_config_get_group_slave_ifaces (st.calls ++ [Call.get_master group.id])
        st.g_rateupg_mgr.iniconf group m).2
      (env.fst_ini_config_get_group_slave_ifaces (st.calls ++ [Call.get_master group.id])
        st.g_rateupg_mgr.iniconf group m).1.toNat 0
      (st.calls ++ [Call.get_master group.id] ++ [Call.get_slaves group.id m])
    rw [hloop] at h1
    exact (List.prefix_append _ _).trans ((List.prefix_append _ _).trans h1)

theorem add_group_groups (env : Collaborators) (st : State) (group : fst_group_info) :
    (fst_rate_upgrade_add_group env st group).2.groups = st.groups ∨
    ((∀ g ∈ st.groups, ¬ StartsWith g.groupname group.id) ∧
      (fst_rate_upgrade_add_group env st group).1 = 0 ∧
      ∃ g, g.groupname = group.id ∧
        (fst_rate_upgrade_add_group env st group).2.groups = st.groups ++ [g] ∧
        1 ≤ g.slave_cnt ∧
        CreatedIn env (fst_rate_upgrade_add_group env st group).2 g) := by
  rcases add_group_shape env st group with
    ⟨q, _, h⟩ | ⟨_, _, h⟩ | ⟨m, _, _, _, h⟩ | ⟨m, i, c3, _, _, _, hloop, h⟩ |
    ⟨m, c3, hfind, hm, hpos, hloop, h⟩
  · left; rw [h]
  · left; rw [h]; rfl
  · left; rw [h]; rfl
  · left; rw [h]; rfl
  · right
    obtain ⟨hc3, hall⟩ := add_group_loop_none env m _ _ 0 _ c3 hloop
    rw [h]
    refine ⟨(find_none_iff _ _).1 hfind, rfl, _, rfl, rfl, by simp only; omega, ?_⟩
    refine ⟨st.calls, ?_, hm, rfl, ?_⟩
    · simp only [creation_history]
      rw [hc3, List.range_eq_range']
      simp
    · intro t ht
      have := hall t ht
      simp only [creation_history]
      rw [List.range_eq_range']
      simpa using this

theorem del_group_frame (env : Collaborators) (st : State) (group : fst_group_info) :
    (fst_rate_upgrade_del_group env st group).2.g_rateupg_mgr.iniconf =
      st.g_rateupg_mgr.iniconf ∧
    st.calls <+: (fst_rate_upgrade_del_group env st group).2.calls ∧
    List.Sublist (fst_rate_upgrade_del_group env st group).2.groups st.groups := by
  cases hfind : find_rate_upgrade_group st.g_rateupg_mgr.groups group.id with
  | none =>
    have h : fst_rate_upgrade_del_group env st group = (-1, st) := by
      unfold fst_rate_upgrade_del_group
      simp only [hfind]
    rw [h]
    exact ⟨rfl, List.prefix_refl _, List.Sublist.refl _⟩
  | some q =>
    obtain ⟨pos, g⟩ := q
    have h : fst_rate_upgrade_del_group env st group =
        (0, { st with
              g_rateupg_mgr :=
                { st.g_rateupg_mgr with
                  groups := deinit_rate_upgrade_group st.g_rateupg_mgr.groups pos },
              calls := del_group_loop env g.slaves g.slave_cnt.toNat 0 st.calls }) := by
      unfold fst_rate_upgrade_del_group
      simp only [hfind]
    rw [h]
    refine ⟨rfl, ?_, ?_⟩
    · show st.calls <+: del_group_loop env g.slaves g.slave_cnt.toNat 0 st.calls
      rw [del_group_loop_calls]
      exact List.prefix_append _ _
    · exact List.eraseIdx_sublist _ _

theorem on_connect_calls_extend (env : Collaborators) (st : State) (group : fst_group_info)
    (iface : String) (addr : List Nat) :
    st.calls <+: (fst_rate_upgrade_on_connect env st group iface addr).2.calls := by
  unfold fst_rate_upgrade_on_connect
  split
  · rename_i pos g hfind
    split
    · have h1 := on_connect_loop_extends env g addr g.slave_cnt.toNat 0 st.calls
      split
      · rename_i i calls1 hloop
        rw [hloop] at h1
        show st.calls <+: on_connect_error_connect env g i calls1
        rw [on_connect_error_connect_calls]
        exact h1.trans (List.prefix_append _ _)
      · rename_i calls1 hloop
        rw [hloop] at h1
        exact h1
    · exact List.prefix_refl _
  · exact List.prefix_refl _

theorem on_disconnect_calls_extend (env : Collaborators) (st : State)
    (group : fst_group_info) (iface : String) (addr : List Nat) :
    st.calls <+: (fst_rate_upgrade_on_disconnect env st group iface addr).2.calls := by
  unfold fst_rate_upgrade_on_disconnect
  split
  · rename_i pos g hfind
    split
    · show st.calls <+: (on_disconnect_loop env g g.slave_cnt.toNat 0 0 st.calls).2
      rw [on_disconnect_loop_calls]
      exact List.prefix_append _ _
    · exact List.prefix_refl _
  · exact List.prefix_refl _

theorem createdIn_mono (env : Collaborators) (st st' : State) (g : rate_upgrade_group)
    (hcalls : st.calls <+: st'.calls)
    (hconf : st'.g_rateupg_mgr.iniconf = st.g_rateupg_mgr.iniconf)
    (h : CreatedIn env st g) : CreatedIn env st' g := by
  obtain ⟨h0, hpre, hm, hs, hadd⟩ := h
  exact ⟨h0, hpre.trans hcalls, by rw [hconf]; exact hm, by rw [hconf]; exact hs, hadd⟩

theorem creation_history_mono (h : List Call) (g : rate_upgrade_group) (a n : Nat)
    (han : a ≤ n) : creation_history h g a <+: creation_history h g n := by
  obtain ⟨k, rfl⟩ : ∃ k, n = a + k := ⟨n - a, by omega⟩
  simp only [creation_history, List.range_add, List.map_append]
  rw [← List.append_assoc]
  exact List.prefix_append _ _

theorem creation_history_succ (h : List Call) (g : rate_upgrade_group) (t : Nat) :
    creation_history h g (t + 1) =
      creation_history h g t ++ [Call.add_iface g.master (g.slaves.getD t default)] := by
  simp [creation_history, List.range_succ]

theorem reachable_groups_created (env : Collaborators) (st : State)
    (hreach : Reachable env st) :
    ∀ g ∈ st.groups, 1 ≤ g.slave_cnt ∧ CreatedIn env st g := by
  induction hreach with
  | init st0 h =>
    intro g hg
    simp [fst_rate_upgrade_init, State.groups] at hg
  | @add_group st group _ ih =>
    obtain ⟨hconf, hcalls⟩ := add_group_frame env st group
    rcases add_group_groups env st group with hsame | ⟨_, _, gnew, _, happ, hcnt, hcre⟩
    · intro g hg
      rw [hsame] at hg
      exact ⟨(ih g hg).1, createdIn_mono env st _ g hcalls hconf (ih g hg).2⟩
    · intro g hg
      rw [happ] at hg
      rcases List.mem_append.1 hg with hold | hnew
      · exact ⟨(ih g hold).1, createdIn_mono env st _ g hcalls hconf (ih g hold).2⟩
      · rw [List.mem_singleton] at hnew
        subst hnew
        exact ⟨hcnt, hcre⟩
  | @del_group st group _ ih =>
    obtain ⟨hconf, hcalls, hsub⟩ := del_group_frame env st group
    intro g hg
    have hold := hsub.subset hg
    exact ⟨(ih g hold).1, createdIn_mono env st _ g hcalls hconf (ih g hold).2⟩
  | @on_connect st group iface addr _ ih =>
    have hmgr := on_connect_mgr env st group iface addr
    intro g hg
    have hold : g ∈ st.groups := by
      unfold State.groups at hg ⊢
      rw [hmgr] at hg
      exact hg
    exact ⟨(ih g hold).1, createdIn_mono env st _ g
      (on_connect_calls_extend env st group iface addr) (by rw [hmgr]) (ih g hold).2⟩
  | @on_disconnect st group iface addr _ ih =>
    have hmgr := on_disconnect_mgr env st group iface addr
    intro g hg
    have hold : g ∈ st.groups := by
      unfold State.groups at hg ⊢
      rw [hmgr] at hg
      exact hg
    exact ⟨(ih g hold).1, createdIn_mono env st _ g
      (on_disconnect_calls_extend env st group iface addr) (by rw [hmgr]) (ih g hold).2⟩

theorem reachable_groups_pairwise (env : Collaborators) (st : State)
    (hreach : Reachable env st) :
    st.groups.Pairwise (fun a b => ¬ StartsWith a.groupname b.groupname) := by
  induction hreach with
  | init st0 h => simp [fst_rate_upgrade_init, State.groups]
  | @add_group st group _ ih =>
    rcases add_group_groups env st group with hsame | ⟨hnew, _, gnew, hname, happ, _, _⟩
    · rw [hsame]; exact ih
    · rw [happ, List.pairwise_append]
      refine ⟨ih, List.pairwise_singleton _ _, ?_⟩
      intro a ha b hb
      rw [List.mem_singleton] at hb
      subst hb
      rw [hname]
      exact hnew a ha
  | @del_group st group _ ih =>
    exact List.Pairwise.sublist (del_group_frame env st group).2.2 ih
  | @on_connect st group iface addr _ ih =>
    unfold State.groups at ih ⊢
    rw [on_connect_mgr]
    exact ih
  | @on_disconnect st group iface addr _ ih =>
    unfold State.groups at ih ⊢
    rw [on_disconnect_mgr]
    exact ih

/-! ## Claims on the invariants of the registry -/

/-- C18. Non-empty-group invariant. In every registry state reachable from
initialisation through `add_group`, `remove_group`, `on_connect` and
`on_disconnect`, with arbitrary collaborators, every group `g` of the
registry has a slave count of at least one and was created in the history of
the state: the configuration source gave its master and its slaves, and
`fst_add_iface` succeeded on each slave below the count. When the
configuration source returns as many entries as it counts, the count is the
length of the slave list, that list has at least one entry, and each slave in
it was added with success through the interface manager. -/
theorem group_nonempty_invariant (env : Collaborators) (st : State)
    (hreach : Reachable env st) (g : rate_upgrade_group) (hg : g ∈ st.groups) :
    1 ≤ g.slave_cnt ∧ CreatedIn env st g ∧
    (WellFormedConfig env →
      g.slave_cnt = (g.slaves.length : Int) ∧ 1 ≤ g.slaves.length ∧
      ∀ s ∈ g.slaves, SlaveAdded env st g s) := by
  obtain ⟨hcnt, hcre⟩ := reachable_groups_created env st hreach g hg
  refine ⟨hcnt, hcre, ?_⟩
  intro hwf
  obtain ⟨h, hpre, _, hs, hadd⟩ := hcre
  have hlen := hwf (h ++ [Call.get_master g.groupname]) st.g_rateupg_mgr.iniconf
    ⟨g.groupname⟩ g.master (by rw [hs]; show 0 ≤ g.slave_cnt; omega)
  rw [hs] at hlen
  have hlen' : g.slave_cnt = (g.slaves.length : Int) := hlen
  refine ⟨hlen', by omega, ?_⟩
  intro s hsmem
  obtain ⟨t, ht, hts⟩ := List.getElem_of_mem hsmem
  have hget : g.slaves.getD t default = s := by
    rw [List.getD_eq_getElem _ _ ht, hts]
  have htn : t < g.slave_cnt.toNat := by omega
  refine ⟨creation_history h g t, ?_, ?_⟩
  · rw [← hget, ← creation_history_succ]
    exact (creation_history_mono h g (t + 1) g.slave_cnt.toNat (by omega)).trans hpre
  · rw [← hget]
    exact hadd t htn

/-- Witness of C18: the group `AB` of the reachable registry holding `A` and
`AB`. -/
theorem group_nonempty_invariant_witness :
    1 ≤ (sampleGroup "AB").slave_cnt ∧
    CreatedIn (sampleEnv [] [] [] []) sampleTwo (sampleGroup "AB") ∧
    (WellFormedConfig (sampleEnv [] [] [] []) →
      (sampleGroup "AB").slave_cnt = ((sampleGroup "AB").slaves.length : Int) ∧
      1 ≤ (sampleGroup "AB").slaves.length ∧
      ∀ s ∈ (sampleGroup "AB").slaves,
        SlaveAdded (sampleEnv [] [] [] []) sampleTwo (sampleGroup "AB") s) :=
  group_nonempty_invariant (sampleEnv [] [] [] []) sampleTwo
    (Reachable.add_group _ (Reachable.add_group _ (Reachable.init _ _)))
    (sampleGroup "AB") (by decide)

/-- C19. A group is identified by its name. In every registry state reachable
from initialisation through `add_group`, `remove_group`, `on_connect` and
`on_disconnect`, the lookup of the exact stored name of a group `g` of the
registry returns `g` at its own position (no earlier group shadows it under
the prefix rule), and no two groups of the registry have the same stored
name. -/
theorem lookup_exact_name (env : Collaborators) (st : State)
    (hreach : Reachable env st) (pre post : List rate_upgrade_group)
    (g : rate_upgrade_group) (hsplit : st.groups = pre ++ g :: post) :
    find_rate_upgrade_group st.groups g.groupname = some (pre.length, g) ∧
    (st.groups.map (fun x => x.groupname)).Nodup := by
  have hpw := reachable_groups_pairwise env st hreach
  constructor
  · rw [hsplit] at hpw ⊢
    rw [List.pairwise_append] at hpw
    refine find_split pre post g g.groupname (List.prefix_refl _) ?_
    intro a ha
    exact hpw.2.2 a ha g (List.mem_cons_self _ _)
  · rw [List.Nodup, List.pairwise_map]
    refine List.Pairwise.imp ?_ hpw
    intro a b hab heq
    apply hab
    rw [heq]
    exact List.prefix_refl _

/-- Witness of C19: the group `AB`, second in the reachable registry holding
`A` and `AB`; its name starts with the name of the first group, and the
lookup of `AB` still returns it. -/
theorem lookup_exact_name_witness :
    find_rate_upgrade_group sampleTwo.groups (sampleGroup "AB").groupname =
      some ([sampleGroup "A"].length, sampleGroup "AB") ∧
    (sampleTwo.groups.map (fun x => x.groupname)).Nodup :=
  lookup_exact_name (sampleEnv [] [] [] []) sampleTwo
    (Reachable.add_group _ (Reachable.add_group _ (Reachable.init _ _)))
    [sampleGroup "A"] [] (sampleGroup "AB") (by decide)

/-! ## `fst_rate_upgrade_add_group` called twice -/

theorem add_group_loop_fixed (env : Collaborators) (m : String)
    (ifaces : List fst_iface_info)
    (hfix : ∀ (h h' : List Call) (m : String) (i : fst_iface_info),
      env.fst_add_iface h m i = env.fst_add_iface h' m i) :
    ∀ (n i : Nat) (calls calls' : List Call),
      (add_group_loop env m ifaces n i calls).1 =
        (add_group_loop env m ifaces n i calls').1 := by
  intro n
  induction n with
  | zero => intro i calls calls'; simp [add_group_loop]
  | succ n ih =>
    intro i calls calls'
    rw [add_group_loop, add_group_loop, hfix calls calls']
    split
    · rfl
    · exact ih _ _ _

theorem add_group_of_loop_some (env : Collaborators) (st : State) (group : fst_group_info)
    (m : String) (i : Nat)
    (hfind : find_rate_upgrade_group st.g_rateupg_mgr.groups group.id = none)
    (hm : env.fst_ini_config_get_rate_upgrade_master st.calls st.g_rateupg_mgr.iniconf
      group.id = some m)
    (hpos : 0 < (env.fst_ini_config_get_group_slave_ifaces
      (st.calls ++ [Call.get_master group.id]) st.g_rateupg_mgr.iniconf group m).1)
    (hl : (add_group_loop env m
      (env.fst_ini_config_get_group_slave_ifaces (st.calls ++ [Call.get_master group.id])
        st.g_rateupg_mgr.iniconf group m).2
      (env.fst_ini_config_get_group_slave_ifaces (st.calls ++ [Call.get_master group.id])
        st.g_rateupg_mgr.iniconf group m).1.toNat 0
      (st.calls ++ [Call.get_master group.id] ++ [Call.get_slaves group.id m])).1 = some i) :
    (fst_rate_upgrade_add_group env st group).1 = -1 := by
  rcases add_group_shape env st group with
    ⟨q, hq, _⟩ | ⟨_, hm0, _⟩ | ⟨m', _, hm', hle, _⟩ | ⟨m', i', c3, _, _, _, _, h⟩ |
    ⟨m', c3, _, hm', _, hloop, _⟩
  · rw [hfind] at hq; cases hq
  · rw [hm] at hm0; cases hm0
  · rw [hm] at hm'
    cases hm'
    omega
  · rw [h]
  · rw [hm] at hm'
    cases hm'
    rw [hloop] at hl
    cases hl

/-- C14, as stated, fails: with a configuration source of fixed behaviour
that gives the group `G1` the master `wlan0` and no slave, the first
`add_group` fails and the second `add_group`, called right after it, returns
`-1` again instead of success. -/
theorem add_group_twice_counterexample :
    FixedBehaviour (sampleCfgEnv (some "wlan0") 0 []) ∧
    (fst_rate_upgrade_add_group (sampleCfgEnv (some "wlan0") 0 []) sampleInit ⟨"G1"⟩).1
      = -1 ∧
    (fst_rate_upgrade_add_group (sampleCfgEnv (some "wlan0") 0 [])
      (fst_rate_upgrade_add_group (sampleCfgEnv (some "wlan0") 0 []) sampleInit
        ⟨"G1"⟩).2 ⟨"G1"⟩).1 = -1 ∧
    (fst_rate_upgrade_add_group (sampleCfgEnv (some "wlan0") 0 [])
      (fst_rate_upgrade_add_group (sampleCfgEnv (some "wlan0") 0 []) sampleInit
        ⟨"G1"⟩).2 ⟨"G1"⟩).1 ≠ 0 :=
  ⟨⟨fun _ _ _ _ => rfl, fun _ _ _ _ _ => rfl, fun _ _ _ _ => rfl, fun _ _ _ => rfl⟩,
    by decide, by decide, by decide⟩

/-- C14, amended. For every registry state, every group identifier and every
fixed behaviour of the configuration source and the interface manager, when
`add_group` is called twice in a row with the same identifier, the second
call returns what the first call returned (success after a success, `-1`
again after a failure), and the group count after both calls exceeds the
count before the first call by at most one. -/
theorem add_group_twice (env : Collaborators) (st : State) (group : fst_group_info)
    (hfixed : FixedBehaviour env) :
    (fst_rate_upgrade_add_group env (fst_rate_upgrade_add_group env st group).2 group).1 =
      (fst_rate_upgrade_add_group env st group).1 ∧
    ((fst_rate_upgrade_add_group env st group).1 = 0 →
      (fst_rate_upgrade_add_group env (fst_rate_upgrade_add_group env st group).2 group).1
        = 0) ∧
    (fst_rate_upgrade_add_group env (fst_rate_upgrade_add_group env st group).2
      group).2.groups.length ≤ st.groups.length + 1 := by
  obtain ⟨hfm, hfs, hfa, _⟩ := hfixed
  have hlen : ∀ s : State,
      (fst_rate_upgrade_add_group env s group).2.groups.length ≤ s.groups.length + 1 := by
    intro s
    rcases add_group_groups env s group with h | ⟨_, _, g, _, h, _, _⟩
    · rw [h]; omega
    · rw [h]; simp
  have key :
      (fst_rate_upgrade_add_group env (fst_rate_upgrade_add_group env st group).2 group).1 =
        (fst_rate_upgrade_add_group env st group).1 ∧
      (fst_rate_upgrade_add_group env (fst_rate_upgrade_add_group env st group).2
        group).2.groups.length ≤ st.groups.length + 1 := by
    rcases add_group_shape env st group with
      ⟨q, hq, h⟩ | ⟨hfind, hm, h⟩ | ⟨m, hfind, hm, hle, h⟩ |
      ⟨m, i, c3, hfind, hm, hpos, hloop, h⟩ | ⟨m, c3, hfind, hm, hpos, hloop, h⟩
    · have h2 : (fst_rate_upgrade_add_group env st group).2 = st := by rw [h]
      rw [h2]
      exact ⟨rfl, hlen st⟩
    · have h2 : (fst_rate_upgrade_add_group env st group).2 =
          { st with calls := st.calls ++ [Call.get_master group.id] } := by rw [h]
      have h1 : (fst_rate_upgrade_add_group env st group).1 = 0 := by rw [h]
      rw [h2, h1]
      refine ⟨?_, hlen _⟩
      have hsecond : fst_rate_upgrade_add_group env
          { st with calls := st.calls ++ [Call.get_master group.id] } group =
          (0, { st with calls := st.calls ++ [Call.get_master group.id] ++
                  [Call.get_master group.id] }) := by
        have hm' : env.fst_ini_config_get_rate_upgrade_master
            (st.calls ++ [Call.get_master group.id]) st.g_rateupg_mgr.iniconf group.id
            = none := by
          rw [hfm _ st.calls]; exact hm
        unfold fst_rate_upgrade_add_group
        simp only [hfind, hm']
      rw [hsecond]
    · have h2 : (fst_rate_upgrade_add_group env st group).2 =
          { st with calls := st.calls ++
              [Call.get_master group.id, Call.get_slaves group.id m] } := by rw [h]
      have h1 : (fst_rate_upgrade_add_group env st group).1 = -1 := by rw [h]
      rw [h2, h1]
      refine ⟨?_, hlen _⟩
      rw [add_group_bad_slaves_exact env
        { st with calls := st.calls ++
            [Call.get_master group.id, Call.get_slaves group.id m] }
        group m ((find_none_iff _ _).1 hfind)
        (by rw [hfm _ st.calls]; exact hm)
        (by rw [hfs _ (st.calls ++ [Call.get_master group.id])]; exact hle)]
    · have h2 : (fst_rate_upgrade_add_group env st group).2 =
          { st with
            calls :=
              add_group_error_add env
                (env.fst_ini_config_get_group_slave_ifaces
                  (st.calls ++ [Call.get_master group.id])
                  st.g_rateupg_mgr.iniconf group m).2 i c3 } := by rw [h]
      have h1 : (fst_rate_upgrade_add_group env st group).1 = -1 := by rw [h]
      rw [h2, h1]
      refine ⟨?_, hlen _⟩
      refine add_group_of_loop_some env
        { st with
          calls :=
            add_group_error_add env
              (env.fst_ini_config_get_group_slave_ifaces
                (st.calls ++ [Call.get_master group.id])
                st.g_rateupg_mgr.iniconf group m).2 i c3 }
        group m i hfind
        (by rw [hfm _ st.calls]; exact hm)
        (by rw [hfs _ (st.calls ++ [Call.get_master group.id])]; exact hpos) ?_
      rw [hfs _ (st.calls ++ [Call.get_master group.id]),
        add_group_loop_fixed env m _ hfa _ 0 _
          (st.calls ++ [Call.get_master group.id] ++ [Call.get_slaves group.id m]),
        hloop]
    · have hknown := add_group_known_exact env (fst_rate_upgrade_add_group env st group).2
        group (by
          rw [h]
          exact ⟨_, List.mem_append_right _ (List.mem_singleton_self _),
            List.prefix_refl _⟩)
      rw [hknown]
      refine ⟨by rw [h], ?_⟩
      rw [h]
      simp [State.groups]
  refine ⟨key.1, ?_, key.2⟩
  intro h0
  rw [key.1, h0]

/-- Witness of the amended C14: `G1` is added twice to the registry holding
`A` and `AB`, with every bind succeeding. -/
theorem add_group_twice_witness :
    (fst_rate_upgrade_add_group (sampleEnv [] [] [] [])
      (fst_rate_upgrade_add_group (sampleEnv [] [] [] []) sampleTwo ⟨"G1"⟩).2 ⟨"G1"⟩).1 =
      (fst_rate_upgrade_add_group (sampleEnv [] [] [] []) sampleTwo ⟨"G1"⟩).1 ∧
    ((fst_rate_upgrade_add_group (sampleEnv [] [] [] []) sampleTwo ⟨"G1"⟩).1 = 0 →
      (fst_rate_upgrade_add_group (sampleEnv [] [] [] [])
        (fst_rate_upgrade_add_group (sampleEnv [] [] [] []) sampleTwo ⟨"G1"⟩).2
        ⟨"G1"⟩).1 = 0) ∧
    (fst_rate_upgrade_add_group (sampleEnv [] [] [] [])
      (fst_rate_upgrade_add_group (sampleEnv [] [] [] []) sampleTwo ⟨"G1"⟩).2
      ⟨"G1"⟩).2.groups.length ≤ sampleTwo.groups.length + 1 :=
  add_group_twice (sampleEnv [] [] [] []) sampleTwo ⟨"G1"⟩
    ⟨fun _ _ _ _ => rfl, fun _ _ _ _ _ => rfl, fun _ _ _ _ => rfl, fun _ _ _ => rfl⟩

end FstRateupg
